import Mathlib

/-!
Verification development for the MTG card detector
(`magic_card_detector.py`).

The Python source is modelled as a shallow embedding:

* machine floats are modelled as exact values in a linear ordered field
  (`ℚ` for concrete evaluation; the geometric definitions are generic in
  the field and in the square-root function `sq`, so theorems cover any
  instance, including the real numbers with the genuine square root);
* `np.nan` sentinels become `Option`; a Python exception becomes a `none`
  result of the enclosing operation;
* external collaborators (OpenCV, shapely point-in-polygon tests, the
  perceptual-hash library, image warping) are parameters of the
  definitions: the theorems hold for every instantiation of those
  parameters, and in particular for the real collaborators.
-/

namespace MTG

/-! ## Perceptual-hash recognition statistics (`MTGCardDetector.phash_compare`)

The hash distances `d_0[i, j]` between the query (at rotation `j`) and
reference `i` are natural numbers (Hamming distances between 32×32-bit
perceptual hashes).  `phash_compare` is modelled as a function of the
reference name table and of the distance table `d : ℕ → List ℕ`
(`d j` lists the distances of the query at rotation index `j` to each
reference); computing `d` itself (imagehash + scipy.ndimage.rotate) is
the external hashing collaborator.

The separation statistic `d_0_dist[j] = (mean(others) - d_min)/std(others)`
is an IEEE float in the source.  It is represented exactly by `Sep`:

* `Sep.zero` is the float `0.0` (the `np.zeros` initialisation of the
  `d_0_dist` array, still present for rotations not yet tested);
* `Sep.nan` is `nan` (`others` empty: `np.average([])` and `np.std([])`
  are `nan`);
* `Sep.pos n v` is the value `n / sqrt v` where `n = mean(others) - d_min`
  and `v` is the population variance of `others`.  By construction
  (lemma `sepStat_wf`) `0 < n` and `0 ≤ v`; `v = 0` makes the value `+inf`
  (float division of a positive number by `0.0`).

Comparisons on `Sep` implement the IEEE comparisons of the represented
floats on that reachable region (`nan` compares false with everything;
`n₁/√v₁ ≤ n₂/√v₂ ↔ n₁²·v₂ ≤ n₂²·v₁` for positive numerators).
-/

/-- Float value of the separation statistic of one rotation. -/
inductive Sep : Type where
  | zero : Sep
  | nan : Sep
  | pos : ℚ → ℚ → Sep
deriving DecidableEq, Repr

/-- IEEE `isnan` on represented separation values. -/
def sepIsNan : Sep → Bool
  | .nan => true
  | _ => false

/-- IEEE `≤` on represented separation values (false whenever one side is
`nan`; `pos n v` stands for `n / sqrt v`, with `0 < n`, `0 ≤ v` on the
reachable region, and `v = 0` standing for `+inf`). -/
def sepLE : Sep → Sep → Bool
  | .nan, _ => false
  | _, .nan => false
  | .zero, .zero => true
  | .zero, .pos _ _ => true
  | .pos _ _, .zero => false
  | .pos n1 v1, .pos n2 v2 =>
      if v1 = 0 then decide (v2 = 0)
      else decide (v2 = 0) || decide (n1 ^ 2 * v2 ≤ n2 ^ 2 * v1)

/-- IEEE `<` on represented separation values. -/
def sepLT : Sep → Sep → Bool
  | .nan, _ => false
  | _, .nan => false
  | .zero, .zero => false
  | .zero, .pos _ _ => true
  | .pos _ _, .zero => false
  | .pos n1 v1, .pos n2 v2 =>
      decide (v1 ≠ 0) && (decide (v2 = 0) || decide (n1 ^ 2 * v2 < n2 ^ 2 * v1))

/-- Minimum of a list of naturals (`np.amin`; the source crashes on an
empty array, the default value 0 is unreachable under the nonemptiness
hypotheses of the theorems). -/
def natMin (l : List ℕ) : ℕ := l.foldr min (l.headD 0)

/-- First index attaining the minimum (`np.argmin` on an array without
nans). -/
def natArgmin (l : List ℕ) : ℕ := l.indexOf (natMin l)

/-- Sum of a list of naturals, as a rational. -/
def qSum (l : List ℕ) : ℚ := l.foldr (fun x acc => (x : ℚ) + acc) 0

/-- Sum of squared deviations from `m`. -/
def sqDevSum (m : ℚ) (l : List ℕ) : ℚ :=
  l.foldr (fun x acc => ((x : ℚ) - m) ^ 2 + acc) 0

/-- Mean of a list of naturals, as a rational (`np.average`). -/
def qMean (l : List ℕ) : ℚ := qSum l / l.length

/-- Population variance of a list of naturals (`np.std` squared). -/
def qVar (l : List ℕ) : ℚ := sqDevSum (qMean l) l / l.length

/-- The distances strictly above the minimum
(`d_0_ = d_0[:,j][d_0[:,j] > np.amin(d_0[:,j])]`). -/
def others (l : List ℕ) : List ℕ := l.filter (fun x => natMin l < x)

/-- Separation statistic of one rotation:
`(np.average(d_0_) - np.amin(d_0))/np.std(d_0_)`, as the represented
float. -/
def sepStat (l : List ℕ) : Sep :=
  if others l = [] then Sep.nan
  else Sep.pos (qMean (others l) - (natMin l : ℚ)) (qVar (others l))

/-- The comparison `d_0_dist[j] > self.hash_separation_thr` (threshold 4):
for the reachable values, `n/√v > 4 ↔ 0 < n ∧ 16·v < n²` (`v = 0` is
`+inf > 4`, true for positive `n`). -/
def sepGT4 : Sep → Bool
  | .pos n v => decide (0 < n) && decide (16 * v < n ^ 2)
  | _ => false

/-- One step of the `np.argmax` scan: numpy keeps the current maximum,
replaces it whenever the next element does not compare `≤` to it (which
is how a `nan` wins), and stops scanning once the current maximum is
`nan`. -/
def argmaxGo : ℕ × Sep → ℕ → List Sep → ℕ
  | cur, _, [] => cur.1
  | cur, i, s :: rest =>
      if sepIsNan cur.2 then cur.1
      else if ! sepLE s cur.2 then argmaxGo (i, s) (i + 1) rest
      else argmaxGo cur (i + 1) rest

/-- `np.argmax` over the `d_0_dist` array (first `nan` wins, otherwise
the first strict maximum). -/
def sepArgmax : List Sep → ℕ
  | [] => 0
  | s :: rest => argmaxGo (0, s) 1 rest

/-- The `d_0_dist` array as it stands while testing rotation `j`:
entries `0..j` hold the computed separation statistics, the rest still
hold the `0.0` of the `np.zeros` initialisation. -/
def d0dist (d : ℕ → List ℕ) (j : ℕ) : List Sep :=
  (List.range 4).map (fun k => if k ≤ j then sepStat (d k) else Sep.zero)

/-- `name.split('.jpg')[0]` on the character list: everything before the
first occurrence of `".jpg"`. -/
def stripJpgChars : List Char → List Char
  | '.' :: 'j' :: 'p' :: 'g' :: _ => []
  | [] => []
  | c :: rest => c :: stripJpgChars rest

/-- `name.split('.jpg')[0]`. -/
def stripJpg (s : String) : String := ⟨stripJpgChars s.data⟩

/-- The recognized card name at rotation `j`:
`self.reference_images[np.argmin(d_0[:, j])].name.split('.jpg')[0]`. -/
def matchName (names : List String) (d : ℕ → List ℕ) (j : ℕ) : String :=
  stripJpg (names.getD (natArgmin (d j)) "")

/-- The rotation loop of `phash_compare`, iterating over the rotation
indices in order; returns at the first rotation whose separation clears
the threshold and wins the `np.argmax` over the partially-filled
`d_0_dist` array, else falls through to `(False, 'unknown')`. -/
def phashGo (names : List String) (d : ℕ → List ℕ) : List ℕ → Bool × String
  | [] => (false, "unknown")
  | j :: rest =>
      if sepGT4 (sepStat (d j)) && (sepArgmax (d0dist d j) == j) then
        (true, matchName names d j)
      else phashGo names d rest

/-- `MTGCardDetector.phash_compare`, as a function of the reference name
table and the hash-distance table. -/
def phash_compare (names : List String) (d : ℕ → List ℕ) : Bool × String :=
  phashGo names d [0, 1, 2, 3]

/-! ### Claim-side description of `phash_compare` (C1)

Written from the specification text: recognition is declared at the first
rotation whose separation exceeds 4.0 and is larger than the separation
of every rotation tested before it (IEEE comparison, so an earlier `nan`
or an exact tie blocks recognition), with the name of the reference at
the minimum distance; if no rotation qualifies, the candidate is
unrecognized. -/

/-- Rotation `j` satisfies both recognition conditions of the claim. -/
def recogAt (d : ℕ → List ℕ) (j : ℕ) : Bool :=
  sepGT4 (sepStat (d j)) &&
    (List.range j).all (fun k => sepLT (sepStat (d k)) (sepStat (d j)))

/-- The recognizer as the claim describes it: the first qualifying
rotation wins, otherwise `(False, 'unknown')`. -/
def phashClaim (names : List String) (d : ℕ → List ℕ) : Bool × String :=
  match [0, 1, 2, 3].find? (recogAt d) with
  | some j => (true, matchName names d j)
  | none => (false, "unknown")

/-! ### Supporting lemmas for the recognizer -/

lemma sum_cast_gt {l : List ℕ} {m : ℕ} (hne : l ≠ []) (h : ∀ x ∈ l, m < x) :
    (m : ℚ) * l.length < qSum l := by
  induction l with
  | nil => exact absurd rfl hne
  | cons a t ih =>
    have ha : (m : ℚ) < a := by exact_mod_cast h a (by simp)
    have hq : qSum (a :: t) = (a : ℚ) + qSum t := rfl
    rw [hq, List.length_cons]
    cases t with
    | nil =>
      have h0 : qSum ([] : List ℕ) = 0 := rfl
      rw [h0]
      push_cast [List.length_nil]
      linarith
    | cons b t2 =>
      have ht := ih (by simp) (fun x hx => h x (by simp [hx]))
      push_cast
      push_cast at ht
      linarith

lemma qMean_gt {l : List ℕ} {m : ℕ} (hne : l ≠ []) (h : ∀ x ∈ l, m < x) :
    (m : ℚ) < qMean l := by
  have hlen : 0 < (l.length : ℚ) := by
    have : 0 < l.length := List.length_pos.mpr hne
    exact_mod_cast this
  have hs := sum_cast_gt hne h
  rw [qMean, lt_div_iff₀ hlen]
  linarith

lemma sqDevSum_nonneg (m : ℚ) (l : List ℕ) : 0 ≤ sqDevSum m l := by
  induction l with
  | nil => exact le_refl 0
  | cons a t ih =>
    have hq : sqDevSum m (a :: t) = ((a : ℚ) - m) ^ 2 + sqDevSum m t := rfl
    rw [hq]
    positivity

lemma qVar_nonneg (l : List ℕ) : 0 ≤ qVar l := by
  rw [qVar]
  apply div_nonneg (sqDevSum_nonneg _ _)
  positivity

/-- Well-formedness of the reachable separation values: a separation
statistic is either `nan` or `pos n v` with positive numerator and
nonnegative variance. -/
lemma sepStat_cases (l : List ℕ) :
    sepStat l = Sep.nan ∨
      ∃ n v, sepStat l = Sep.pos n v ∧ 0 < n ∧ 0 ≤ v := by
  rw [sepStat]
  by_cases h : others l = []
  · simp [h]
  · right
    refine ⟨qMean (others l) - (natMin l : ℚ), qVar (others l),
      by simp [h], ?_, qVar_nonneg _⟩
    have hmean : (natMin l : ℚ) < qMean (others l) := by
      apply qMean_gt h
      intro x hx
      have := List.mem_filter.mp hx
      simpa using this.2
    linarith

lemma sepLT_eq_not_sepLE {a b : Sep} (ha : sepIsNan a = false)
    (hb : sepIsNan b = false) : sepLT a b = ! sepLE b a := by
  cases a <;> cases b <;> simp_all [sepIsNan, sepLT, sepLE]
  case pos.pos n1 v1 n2 v2 =>
    by_cases h2 : v2 = 0 <;> by_cases h1 : v1 = 0 <;>
      simp [h1, h2, not_le, ← decide_not, decide_eq_decide]

/-- Transitivity of the strict IEEE comparison on reachable `pos`
values. -/
lemma posLT_trans {n1 v1 n2 v2 n3 v3 : ℚ}
    (hn1 : 0 < n1) (hn2 : 0 < n2) (hn3 : 0 < n3)
    (hv1 : 0 ≤ v1) (hv2 : 0 ≤ v2) (hv3 : 0 ≤ v3)
    (hab : sepLT (Sep.pos n1 v1) (Sep.pos n2 v2) = true)
    (hbc : sepLT (Sep.pos n2 v2) (Sep.pos n3 v3) = true) :
    sepLT (Sep.pos n1 v1) (Sep.pos n3 v3) = true := by
  simp only [sepLT, Bool.and_eq_true, Bool.or_eq_true, decide_eq_true_eq] at *
  obtain ⟨h1ne, hab⟩ := hab
  obtain ⟨h2ne, hbc⟩ := hbc
  refine ⟨h1ne, ?_⟩
  rcases hab with h20 | hab
  · exact absurd h20 h2ne
  rcases hbc with h30 | hbc
  · exact Or.inl h30
  right
  have hv2' : 0 < v2 := lt_of_le_of_ne hv2 (Ne.symm h2ne)
  have ha0 : 0 ≤ n1 ^ 2 * v2 := by positivity
  have hd : 0 < n3 ^ 2 * v2 := by positivity
  have key : (n1 ^ 2 * v2) * (n2 ^ 2 * v3) < (n2 ^ 2 * v1) * (n3 ^ 2 * v2) :=
    calc (n1 ^ 2 * v2) * (n2 ^ 2 * v3)
        ≤ (n1 ^ 2 * v2) * (n3 ^ 2 * v2) :=
          mul_le_mul_of_nonneg_left (le_of_lt hbc) ha0
      _ < (n2 ^ 2 * v1) * (n3 ^ 2 * v2) :=
          mul_lt_mul_of_pos_right hab hd
  have hn2v2 : 0 < n2 ^ 2 * v2 := by positivity
  nlinarith [key, hn2v2]

/-- Mixed transitivity `a ≤ b < c → a < c` on reachable `pos` values. -/
lemma posLE_LT_trans {n1 v1 n2 v2 n3 v3 : ℚ}
    (hn1 : 0 < n1) (hn2 : 0 < n2) (hn3 : 0 < n3)
    (hv1 : 0 ≤ v1) (hv2 : 0 ≤ v2) (hv3 : 0 ≤ v3)
    (hab : sepLE (Sep.pos n1 v1) (Sep.pos n2 v2) = true)
    (hbc : sepLT (Sep.pos n2 v2) (Sep.pos n3 v3) = true) :
    sepLT (Sep.pos n1 v1) (Sep.pos n3 v3) = true := by
  simp only [sepLE, sepLT, Bool.and_eq_true, Bool.or_eq_true,
    decide_eq_true_eq] at *
  obtain ⟨h2ne, hbc⟩ := hbc
  have hv2' : 0 < v2 := lt_of_le_of_ne hv2 (Ne.symm h2ne)
  by_cases h1 : v1 = 0
  · rw [if_pos h1] at hab
    exact absurd (of_decide_eq_true hab) h2ne
  · rw [if_neg h1] at hab
    simp only [Bool.or_eq_true, decide_eq_true_eq] at hab
    refine ⟨h1, ?_⟩
    rcases hab with h20 | hab
    · exact absurd h20 h2ne
    rcases hbc with h30 | hbc
    · exact Or.inl h30
    right
    have hv1' : 0 < v1 := lt_of_le_of_ne hv1 (Ne.symm h1)
    have hc0 : 0 ≤ n2 ^ 2 * v3 := by positivity
    have hb0 : 0 < n2 ^ 2 * v1 := by positivity
    have key : (n1 ^ 2 * v2) * (n2 ^ 2 * v3) < (n2 ^ 2 * v1) * (n3 ^ 2 * v2) :=
      calc (n1 ^ 2 * v2) * (n2 ^ 2 * v3)
          ≤ (n2 ^ 2 * v1) * (n2 ^ 2 * v3) :=
            mul_le_mul_of_nonneg_right hab hc0
        _ < (n2 ^ 2 * v1) * (n3 ^ 2 * v2) :=
            mul_lt_mul_of_pos_left hbc hb0
    have hn2v2 : 0 < n2 ^ 2 * v2 := by positivity
    nlinarith [key, hn2v2]

@[simp] lemma sepIsNan_zero : sepIsNan Sep.zero = false := rfl

@[simp] lemma sepIsNan_nan : sepIsNan Sep.nan = true := rfl

@[simp] lemma sepIsNan_pos (n v : ℚ) : sepIsNan (Sep.pos n v) = false := rfl

@[simp] lemma sepLE_zero_pos (n v : ℚ) : sepLE Sep.zero (Sep.pos n v) = true := rfl

@[simp] lemma sepLE_nan_left (s : Sep) : sepLE Sep.nan s = false := by
  cases s <;> rfl

@[simp] lemma sepLE_nan_right (s : Sep) : sepLE s Sep.nan = false := by
  cases s <;> rfl

@[simp] lemma sepLT_nan_left (s : Sep) : sepLT Sep.nan s = false := by
  cases s <;> rfl

@[simp] lemma sepLT_nan_right (s : Sep) : sepLT s Sep.nan = false := by
  cases s <;> rfl

lemma sepGT4_pos_elim {s : Sep} (h : sepGT4 s = true) :
    ∃ n v, s = Sep.pos n v ∧ 0 < n ∧ 16 * v < n ^ 2 := by
  cases s with
  | zero => exact absurd h (by simp [sepGT4])
  | nan => exact absurd h (by simp [sepGT4])
  | pos n v =>
    simp only [sepGT4, Bool.and_eq_true, decide_eq_true_eq] at h
    exact ⟨n, v, rfl, h.1, h.2⟩

lemma sepStat_pos_inv {l : List ℕ} {n v : ℚ} (h : sepStat l = Sep.pos n v) :
    0 < n ∧ 0 ≤ v := by
  rcases sepStat_cases l with h' | ⟨n', v', h', hn, hv⟩
  · rw [h'] at h; cases h
  · rw [h'] at h
    injection h with e1 e2
    subst e1; subst e2
    exact ⟨hn, hv⟩

lemma argmaxGo_nan (k i : ℕ) (l : List Sep) : argmaxGo (k, Sep.nan) i l = k := by
  cases l with
  | nil => rfl
  | cons s rest => rfl

/-! ### The recognition condition of each rotation, implementation versus
claim formulation -/

lemma condEq0 (d : ℕ → List ℕ) :
    (sepGT4 (sepStat (d 0)) && (sepArgmax (d0dist d 0) == 0)) = recogAt d 0 := by
  have hd : d0dist d 0 = [sepStat (d 0), Sep.zero, Sep.zero, Sep.zero] := rfl
  have hr : recogAt d 0 = (sepGT4 (sepStat (d 0)) && true) := rfl
  rw [hd, hr]
  cases hS : sepGT4 (sepStat (d 0))
  · simp
  · obtain ⟨n, v, hs, _, _⟩ := sepGT4_pos_elim hS
    rw [hs]
    simp [sepArgmax, argmaxGo]

lemma condEq1 (d : ℕ → List ℕ) :
    (sepGT4 (sepStat (d 1)) && (sepArgmax (d0dist d 1) == 1)) = recogAt d 1 := by
  have hd : d0dist d 1 = [sepStat (d 0), sepStat (d 1), Sep.zero, Sep.zero] := rfl
  have hr : recogAt d 1 = (sepGT4 (sepStat (d 1)) &&
      (sepLT (sepStat (d 0)) (sepStat (d 1)) && true)) := rfl
  rw [hd, hr]
  cases hS : sepGT4 (sepStat (d 1))
  · simp
  · obtain ⟨n1, v1, hs1, hn1, _⟩ := sepGT4_pos_elim hS
    rcases sepStat_cases (d 0) with h0 | ⟨n0, v0, h0, hn0, hv0⟩
    · rw [h0, hs1]
      simp [sepArgmax, argmaxGo_nan]
    · rw [h0, hs1]
      have hlt : sepLT (Sep.pos n0 v0) (Sep.pos n1 v1)
          = ! sepLE (Sep.pos n1 v1) (Sep.pos n0 v0) :=
        sepLT_eq_not_sepLE rfl rfl
      cases hb : sepLE (Sep.pos n1 v1) (Sep.pos n0 v0)
      · simp [sepArgmax, argmaxGo, hb, hlt]
      · simp [sepArgmax, argmaxGo, hb, hlt]

lemma condEq2 (d : ℕ → List ℕ) :
    (sepGT4 (sepStat (d 2)) && (sepArgmax (d0dist d 2) == 2)) = recogAt d 2 := by
  have hd : d0dist d 2 =
      [sepStat (d 0), sepStat (d 1), sepStat (d 2), Sep.zero] := rfl
  have hr : recogAt d 2 = (sepGT4 (sepStat (d 2)) &&
      (sepLT (sepStat (d 0)) (sepStat (d 2)) &&
        (sepLT (sepStat (d 1)) (sepStat (d 2)) && true))) := rfl
  rw [hd, hr]
  cases hS : sepGT4 (sepStat (d 2))
  · simp
  · obtain ⟨n2, v2, hs2, hn2, _⟩ := sepGT4_pos_elim hS
    have hv2 := (sepStat_pos_inv hs2).2
    rcases sepStat_cases (d 0) with h0 | ⟨n0, v0, h0, hn0, hv0⟩
    · rw [h0, hs2]
      simp [sepArgmax, argmaxGo_nan]
    · rcases sepStat_cases (d 1) with h1 | ⟨n1, v1, h1, hn1, hv1⟩
      · rw [h0, h1, hs2]
        cases hb : sepLE Sep.nan (Sep.pos n0 v0)
        · simp [sepArgmax, argmaxGo, argmaxGo_nan]
        · simp [sepLE] at hb
      · rw [h0, h1, hs2]
        have hlt01 : sepLT (Sep.pos n0 v0) (Sep.pos n1 v1)
            = ! sepLE (Sep.pos n1 v1) (Sep.pos n0 v0) :=
          sepLT_eq_not_sepLE rfl rfl
        have hlt02 : sepLT (Sep.pos n0 v0) (Sep.pos n2 v2)
            = ! sepLE (Sep.pos n2 v2) (Sep.pos n0 v0) :=
          sepLT_eq_not_sepLE rfl rfl
        have hlt12 : sepLT (Sep.pos n1 v1) (Sep.pos n2 v2)
            = ! sepLE (Sep.pos n2 v2) (Sep.pos n1 v1) :=
          sepLT_eq_not_sepLE rfl rfl
        cases hb1 : sepLE (Sep.pos n1 v1) (Sep.pos n0 v0)
        · -- the scan replaces the current maximum by rotation 1
          cases hb2 : sepLE (Sep.pos n2 v2) (Sep.pos n1 v1)
          · -- rotation 2 beats rotation 1: recognized at 2 on both sides
            have l12 : sepLT (Sep.pos n1 v1) (Sep.pos n2 v2) = true := by
              rw [hlt12, hb2]; rfl
            have l01 : sepLT (Sep.pos n0 v0) (Sep.pos n1 v1) = true := by
              rw [hlt01, hb1]; rfl
            have l02 : sepLT (Sep.pos n0 v0) (Sep.pos n2 v2) = true :=
              posLT_trans hn0 hn1 hn2 hv0 hv1 hv2 l01 l12
            simp [sepArgmax, argmaxGo, hb1, hb2, l02, l12]
          · have l12 : sepLT (Sep.pos n1 v1) (Sep.pos n2 v2) = false := by
              rw [hlt12, hb2]; rfl
            simp [sepArgmax, argmaxGo, hb1, hb2, l12]
        · -- rotation 0 stays the current maximum after step 1
          cases hb2 : sepLE (Sep.pos n2 v2) (Sep.pos n0 v0)
          · have l02 : sepLT (Sep.pos n0 v0) (Sep.pos n2 v2) = true := by
              rw [hlt02, hb2]; rfl
            have l12 : sepLT (Sep.pos n1 v1) (Sep.pos n2 v2) = true :=
              posLE_LT_trans hn1 hn0 hn2 hv1 hv0 hv2 hb1 l02
            simp [sepArgmax, argmaxGo, hb1, hb2, l02, l12]
          · have l02 : sepLT (Sep.pos n0 v0) (Sep.pos n2 v2) = false := by
              rw [hlt02, hb2]; rfl
            simp [sepArgmax, argmaxGo, hb1, hb2, l02]

lemma condEq3 (d : ℕ → List ℕ) :
    (sepGT4 (sepStat (d 3)) && (sepArgmax (d0dist d 3) == 3)) = recogAt d 3 := by
  have hd : d0dist d 3 =
      [sepStat (d 0), sepStat (d 1), sepStat (d 2), sepStat (d 3)] := rfl
  have hr : recogAt d 3 = (sepGT4 (sepStat (d 3)) &&
      (sepLT (sepStat (d 0)) (sepStat (d 3)) &&
        (sepLT (sepStat (d 1)) (sepStat (d 3)) &&
          (sepLT (sepStat (d 2)) (sepStat (d 3)) && true)))) := rfl
  rw [hd, hr]
  cases hS : sepGT4 (sepStat (d 3))
  · simp
  · obtain ⟨n3, v3, hs3, hn3, _⟩ := sepGT4_pos_elim hS
    have hv3 := (sepStat_pos_inv hs3).2
    rcases sepStat_cases (d 0) with h0 | ⟨n0, v0, h0, hn0, hv0⟩
    · rw [h0, hs3]
      simp [sepArgmax, argmaxGo_nan]
    · rcases sepStat_cases (d 1) with h1 | ⟨n1, v1, h1, hn1, hv1⟩
      · rw [h0, h1, hs3]
        cases hb : sepLE Sep.nan (Sep.pos n0 v0)
        · simp [sepArgmax, argmaxGo, argmaxGo_nan]
        · simp [sepLE] at hb
      · rcases sepStat_cases (d 2) with h2 | ⟨n2, v2, h2, hn2, hv2⟩
        · -- rotation 2 has a nan separation: the scan stops at index 2
          rw [h0, h1, h2, hs3]
          cases hb1 : sepLE (Sep.pos n1 v1) (Sep.pos n0 v0)
          · simp [sepArgmax, argmaxGo, hb1, argmaxGo_nan]
          · simp [sepArgmax, argmaxGo, hb1, argmaxGo_nan]
        · rw [h0, h1, h2, hs3]
          have hlt01 : sepLT (Sep.pos n0 v0) (Sep.pos n1 v1)
              = ! sepLE (Sep.pos n1 v1) (Sep.pos n0 v0) :=
            sepLT_eq_not_sepLE rfl rfl
          have hlt02 : sepLT (Sep.pos n0 v0) (Sep.pos n2 v2)
              = ! sepLE (Sep.pos n2 v2) (Sep.pos n0 v0) :=
            sepLT_eq_not_sepLE rfl rfl
          have hlt12 : sepLT (Sep.pos n1 v1) (Sep.pos n2 v2)
              = ! sepLE (Sep.pos n2 v2) (Sep.pos n1 v1) :=
            sepLT_eq_not_sepLE rfl rfl
          have hlt03 : sepLT (Sep.pos n0 v0) (Sep.pos n3 v3)
              = ! sepLE (Sep.pos n3 v3) (Sep.pos n0 v0) :=
            sepLT_eq_not_sepLE rfl rfl
          have hlt13 : sepLT (Sep.pos n1 v1) (Sep.pos n3 v3)
              = ! sepLE (Sep.pos n3 v3) (Sep.pos n1 v1) :=
            sepLT_eq_not_sepLE rfl rfl
          have hlt23 : sepLT (Sep.pos n2 v2) (Sep.pos n3 v3)
              = ! sepLE (Sep.pos n3 v3) (Sep.pos n2 v2) :=
            sepLT_eq_not_sepLE rfl rfl
          cases hb1 : sepLE (Sep.pos n1 v1) (Sep.pos n0 v0)
          · have l01 : sepLT (Sep.pos n0 v0) (Sep.pos n1 v1) = true := by
              rw [hlt01, hb1]; rfl
            cases hb2 : sepLE (Sep.pos n2 v2) (Sep.pos n1 v1)
            · have l12 : sepLT (Sep.pos n1 v1) (Sep.pos n2 v2) = true := by
                rw [hlt12, hb2]; rfl
              cases hb3 : sepLE (Sep.pos n3 v3) (Sep.pos n2 v2)
              · have l23 : sepLT (Sep.pos n2 v2) (Sep.pos n3 v3) = true := by
                  rw [hlt23, hb3]; rfl
                have l13 : sepLT (Sep.pos n1 v1) (Sep.pos n3 v3) = true :=
                  posLT_trans hn1 hn2 hn3 hv1 hv2 hv3 l12 l23
                have l03 : sepLT (Sep.pos n0 v0) (Sep.pos n3 v3) = true :=
                  posLT_trans hn0 hn1 hn3 hv0 hv1 hv3 l01 l13
                simp [sepArgmax, argmaxGo, hb1, hb2, hb3, l03, l13, l23]
              · have l23 : sepLT (Sep.pos n2 v2) (Sep.pos n3 v3) = false := by
                  rw [hlt23, hb3]; rfl
                simp [sepArgmax, argmaxGo, hb1, hb2, hb3, l23]
            · cases hb3 : sepLE (Sep.pos n3 v3) (Sep.pos n1 v1)
              · have l13 : sepLT (Sep.pos n1 v1) (Sep.pos n3 v3) = true := by
                  rw [hlt13, hb3]; rfl
                have l03 : sepLT (Sep.pos n0 v0) (Sep.pos n3 v3) = true :=
                  posLT_trans hn0 hn1 hn3 hv0 hv1 hv3 l01 l13
                have l23 : sepLT (Sep.pos n2 v2) (Sep.pos n3 v3) = true :=
                  posLE_LT_trans hn2 hn1 hn3 hv2 hv1 hv3 hb2 l13
                simp [sepArgmax, argmaxGo, hb1, hb2, hb3, l03, l13, l23]
              · have l13 : sepLT (Sep.pos n1 v1) (Sep.pos n3 v3) = false := by
                  rw [hlt13, hb3]; rfl
                simp [sepArgmax, argmaxGo, hb1, hb2, hb3, l13]
          · cases hb2 : sepLE (Sep.pos n2 v2) (Sep.pos n0 v0)
            · have l02 : sepLT (Sep.pos n0 v0) (Sep.pos n2 v2) = true := by
                rw [hlt02, hb2]; rfl
              cases hb3 : sepLE (Sep.pos n3 v3) (Sep.pos n2 v2)
              · have l23 : sepLT (Sep.pos n2 v2) (Sep.pos n3 v3) = true := by
                  rw [hlt23, hb3]; rfl
                have l03 : sepLT (Sep.pos n0 v0) (Sep.pos n3 v3) = true :=
                  posLT_trans hn0 hn2 hn3 hv0 hv2 hv3 l02 l23
                have l12 : sepLT (Sep.pos n1 v1) (Sep.pos n2 v2) = true :=
                  posLE_LT_trans hn1 hn0 hn2 hv1 hv0 hv2 hb1 l02
                have l13 : sepLT (Sep.pos n1 v1) (Sep.pos n3 v3) = true :=
                  posLT_trans hn1 hn2 hn3 hv1 hv2 hv3 l12 l23
                simp [sepArgmax, argmaxGo, hb1, hb2, hb3, l03, l13, l23]
              · have l23 : sepLT (Sep.pos n2 v2) (Sep.pos n3 v3) = false := by
                  rw [hlt23, hb3]; rfl
                simp [sepArgmax, argmaxGo, hb1, hb2, hb3, l23]
            · cases hb3 : sepLE (Sep.pos n3 v3) (Sep.pos n0 v0)
              · have l03 : sepLT (Sep.pos n0 v0) (Sep.pos n3 v3) = true := by
                  rw [hlt03, hb3]; rfl
                have l13 : sepLT (Sep.pos n1 v1) (Sep.pos n3 v3) = true :=
                  posLE_LT_trans hn1 hn0 hn3 hv1 hv0 hv3 hb1 l03
                have l23 : sepLT (Sep.pos n2 v2) (Sep.pos n3 v3) = true :=
                  posLE_LT_trans hn2 hn0 hn3 hv2 hv0 hv3 hb2 l03
                simp [sepArgmax, argmaxGo, hb1, hb2, hb3, l03, l13, l23]
              · have l03 : sepLT (Sep.pos n0 v0) (Sep.pos n3 v3) = false := by
                  rw [hlt03, hb3]; rfl
                simp [sepArgmax, argmaxGo, hb1, hb2, hb3, l03]

/-- Claim C1: `phash_compare` tests the rotations in the order
0°, 90°, 180°, 270°; for each rotation it computes
`separation = (mean(others) - d_min)/stddev(others)` where `d_min` is the
minimum hash distance to the references and `others` are the distances
strictly greater than `d_min`; it declares recognition with the name of
the reference at `d_min` at the first rotation whose separation exceeds
4.0 and is the largest separation among the rotations tested so far
(IEEE comparison: an earlier `nan` separation or an exact tie blocks
recognition), stops testing further rotations at that point, and
returns the candidate as unrecognized iff no rotation satisfies both
conditions.  Stated as: the loop implementation equals the claim-side
first-qualifying-rotation description, for every reference table and
every distance table. -/
theorem phash_compare_first_peak_rotation (names : List String)
    (d : ℕ → List ℕ) : phash_compare names d = phashClaim names d := by
  have e0 := condEq0 d
  have e1 := condEq1 d
  have e2 := condEq2 d
  have e3 := condEq3 d
  rw [phash_compare, phashClaim]
  simp only [phashGo, e0, e1, e2, e3]
  cases h0 : recogAt d 0 <;> cases h1 : recogAt d 1 <;>
    cases h2 : recogAt d 2 <;> cases h3 : recogAt d 3 <;>
      simp [List.find?, h0, h1, h2, h3]

/-- Claim C10: at a rotation where every reference distance equals the
minimum, the set of `other` distances is empty, the separation statistic
is `nan`, and that rotation cannot declare recognition (and no crash
occurs: the model is total there); consequently, with a single-entry
reference table, `phash_compare` returns unrecognized with name
`'unknown'`. -/
theorem phash_compare_all_min_nan_and_single_ref (names : List String)
    (d : ℕ → List ℕ)
    (hone : ∀ j, j < 4 → (d j).length = 1) :
    (∀ j, (∀ x ∈ d j, x = natMin (d j)) →
        others (d j) = [] ∧ sepStat (d j) = Sep.nan ∧
          (sepGT4 (sepStat (d j)) && (sepArgmax (d0dist d j) == j)) = false) ∧
      phash_compare names d = (false, "unknown") := by
  have base : ∀ j, (∀ x ∈ d j, x = natMin (d j)) →
      others (d j) = [] ∧ sepStat (d j) = Sep.nan ∧
        (sepGT4 (sepStat (d j)) && (sepArgmax (d0dist d j) == j)) = false := by
    intro j hj
    have ho : others (d j) = [] := by
      rw [others, List.filter_eq_nil]
      intro a ha
      simp [hj a ha]
    have hs : sepStat (d j) = Sep.nan := by
      rw [sepStat, if_pos ho]
    exact ⟨ho, hs, by rw [hs]; simp [sepGT4]⟩
  refine ⟨base, ?_⟩
  have hall : ∀ j, j < 4 →
      (sepGT4 (sepStat (d j)) && (sepArgmax (d0dist d j) == j)) = false := by
    intro j hj4
    obtain ⟨a, ha⟩ := List.length_eq_one.mp (hone j hj4)
    refine (base j ?_).2.2
    intro x hx
    rw [ha] at hx ⊢
    simp at hx
    simp [hx, natMin]
  rw [phash_compare]
  simp only [phashGo, hall 0 (by norm_num), hall 1 (by norm_num),
    hall 2 (by norm_num), hall 3 (by norm_num)]
  rfl

/-- Witness for C10: a one-entry reference table, distance 7 at every
rotation; the candidate comes back unrecognized as `'unknown'`. -/
theorem phash_compare_all_min_nan_and_single_ref_witness :
    phash_compare ["ref.jpg"] (fun _ => [7]) = (false, "unknown") :=
  (phash_compare_all_min_nan_and_single_ref ["ref.jpg"] (fun _ => [7])
    (by intro j hj; rfl)).2

/-! ## Polygon geometry kernel

The geometric functions are modelled over an arbitrary linear ordered
field `K` together with a square-root function `sq : K → K`; the Python
program is the instance "IEEE doubles with the real square root", and
all theorems hold for every instance.  Points are pairs, polygons are
the vertex lists without the repeated closing point (the slices
`coords[:-1]` of the source).  `np.nan` results are `Option.none`. -/

variable {K : Type} [LinearOrderedField K]

/-- `line_intersection(x, y)`: intersection point of the two infinite
lines through `(x 0, y 0), (x 1, y 1)` and `(x 2, y 2), (x 3, y 3)`;
`none` models the `(nan, nan)` sentinel of exactly parallel lines.
Only indices 0–3 of the coordinate functions are used (the source takes
4-element arrays). -/
def line_intersection (x y : ℕ → K) : Option (K × K) :=
  if (x 0 - x 1) * (y 2 - y 3) = (y 0 - y 1) * (x 2 - x 3) then none
  else
    some (((x 0 * y 1 - y 0 * x 1) * (x 2 - x 3) -
             (x 0 - x 1) * (x 2 * y 3 - y 2 * x 3)) /
            ((x 0 - x 1) * (y 2 - y 3) - (y 0 - y 1) * (x 2 - x 3)),
          ((x 0 * y 1 - y 0 * x 1) * (y 2 - y 3) -
             (y 0 - y 1) * (x 2 * y 3 - y 2 * x 3)) /
            ((x 0 - x 1) * (y 2 - y 3) - (y 0 - y 1) * (x 2 - x 3)))

/-- The point `p` lies on the infinite line through `a` and `b`. -/
def onLine (a b p : K × K) : Prop :=
  (b.1 - a.1) * (p.2 - a.2) = (b.2 - a.2) * (p.1 - a.1)

instance (a b p : K × K) : Decidable (onLine a b p) := by
  rw [onLine]; infer_instance

/-- Claim C7: `line_intersection` returns the not-a-number sentinel iff
the determinant of the 2×2 system is exactly zero (exact equality of the
cross products, no tolerance); otherwise the returned point lies on both
infinite lines through the segments' endpoints. -/
theorem line_intersection_parallel_iff (x y : ℕ → K) :
    (line_intersection x y = none ↔
      (x 0 - x 1) * (y 2 - y 3) - (y 0 - y 1) * (x 2 - x 3) = 0) ∧
    (∀ p : K × K, line_intersection x y = some p →
      onLine (x 0, y 0) (x 1, y 1) p ∧ onLine (x 2, y 2) (x 3, y 3) p) := by
  constructor
  · rw [line_intersection]
    by_cases h : (x 0 - x 1) * (y 2 - y 3) = (y 0 - y 1) * (x 2 - x 3)
    · simp [h, sub_eq_zero]
    · simp [h, sub_eq_zero]
  · intro p hp
    rw [line_intersection] at hp
    by_cases h : (x 0 - x 1) * (y 2 - y 3) = (y 0 - y 1) * (x 2 - x 3)
    · simp [h] at hp
    · rw [if_neg h] at hp
      have hd : (x 0 - x 1) * (y 2 - y 3) - (y 0 - y 1) * (x 2 - x 3) ≠ 0 :=
        sub_ne_zero.mpr h
      have hp' := Option.some.inj hp
      subst hp'
      constructor
      · rw [onLine]
        field_simp
        ring
      · rw [onLine]
        field_simp
        ring

/-- Witness for C7 at a concrete input: the lines through
`(0,0),(1,0)` and `(0,0),(0,1)` are not parallel and intersect at the
origin, which lies on both lines. -/
theorem line_intersection_parallel_iff_witness :
    line_intersection (K := ℚ) (fun i => [0, 1, 0, 0].getD i 0)
      (fun i => [0, 0, 0, 1].getD i 0) = some (0, 0) ∧
    onLine ((0 : ℚ), (0 : ℚ)) (1, 0) (0, 0) ∧
    onLine ((0 : ℚ), (0 : ℚ)) (0, 1) (0, 0) := by
  have hsome : line_intersection (K := ℚ) (fun i => [0, 1, 0, 0].getD i 0)
      (fun i => [0, 0, 0, 1].getD i 0) = some (0, 0) := by
    rw [line_intersection]; norm_num
  have h := (line_intersection_parallel_iff (K := ℚ)
    (fun i => [0, 1, 0, 0].getD i 0) (fun i => [0, 0, 0, 1].getD i 0)).2
    (0, 0) hsome
  exact ⟨hsome, by simpa using h.1, by simpa using h.2⟩

/-! ### `simplify_polygon` -/

/-- Pairs of cyclically consecutive entries `(p_k, p_{k+1 mod n})`. -/
def cyclicPairs {α : Type} (l : List α) : List (α × α) := l.zip (l.rotate 1)

/-- The cyclic edge lengths `d_in` of the polygon
(`np.sqrt(ediff1d(x, to_end=x[0]-x[-1])**2 + ediff1d(y, ...)**2)`). -/
def edgeLens (sq : K → K) (pts : List (K × K)) : List K :=
  (cyclicPairs pts).map
    (fun pq => sq ((pq.2.1 - pq.1.1) ^ 2 + (pq.2.2 - pq.1.2) ^ 2))

/-- Scan of `np.argmin` (first strict minimum wins). -/
def argminGo : ℕ × K → ℕ → List K → ℕ
  | cur, _, [] => cur.1
  | cur, i, a :: rest =>
      if a < cur.2 then argminGo (i, a) (i + 1) rest
      else argminGo cur (i + 1) rest

/-- `np.argmin` over a list without nans. -/
def argminK : List K → ℕ
  | [] => 0
  | a :: rest => argminGo (0, a) 1 rest

/-- `generate_point_indices(index_1, index_2, max_len)`: the four point
indices of the two polygon segments `index_1` and `index_2`, modulo the
point count (Python `%` on possibly negative indices is `Int.emod`). -/
def generate_point_indices (i1 i2 : ℤ) (n : ℕ) : ℕ → ℕ := fun j =>
  (([i1, i1 + 1, i2, i2 + 1].getD j 0).emod n).toNat

/-- The x coordinates of the points selected by `idx` (`x_in[ind]`). -/
def xsAt (pts : List (K × K)) (idx : ℕ → ℕ) : ℕ → K :=
  fun j => (pts.getD (idx j) (0, 0)).1

/-- The y coordinates of the points selected by `idx` (`y_in[ind]`). -/
def ysAt (pts : List (K × K)) (idx : ℕ → ℕ) : ℕ → K :=
  fun j => (pts.getD (idx j) (0, 0)).2

/-- The `(maxiter is not None) and (niter >= maxiter)` stop test. -/
def matchesMax : Option ℕ → ℕ → Bool
  | some m, n => decide (m ≤ n)
  | none, _ => false

/-- The segment to remove: `segment_to_remove` when given, else
`np.argmin(d_in)`. -/
def pickSeg (target : Option ℕ) (d : List K) : ℕ :=
  match target with
  | some t => t
  | none => argminK d

/-- The four point indices feeding `line_intersection` when removing
segment `k` (`generate_point_indices(k - 1, k + 1, len_poly)`). -/
def segIdx (k n : ℕ) : ℕ → ℕ :=
  generate_point_indices ((k : ℤ) - 1) ((k : ℤ) + 1) n

/-- Vertex `k` is replaced by the intersection point and vertex
`(k+1) % len` is deleted. -/
def removeSeg (pts : List (K × K)) (k : ℕ) (p : K × K) : List (K × K) :=
  (pts.set k p).eraseIdx ((k + 1) % pts.length)

/-- The removal loop of `simplify_polygon`.  The fuel argument is
initialised to the vertex count, which strictly bounds the possible
number of removals; the loop body is exactly the Python body: stop when
at most 4 vertices remain, pick the target segment or the shortest one,
stop if it is not shorter than `tol` times the perimeter, otherwise
replace vertex `k` by the intersection of the two neighbouring segments
and delete vertex `k+1`; a parallel-line intersection writes `nan`
coordinates, which poison the polygon and are modelled as the failure
result `none` (the count is the number of completed removals).  Returns
the resulting polygon (or failure) and the number of removal
iterations. -/
def simplifyGo (sq : K → K) (tol : K) (maxiter target : Option ℕ) :
    ℕ → List (K × K) → ℕ → Option (List (K × K)) × ℕ
  | 0, pts, niter => (some pts, niter)
  | fuel + 1, pts, niter =>
    if 4 < pts.length then
      if (edgeLens sq pts).getD (pickSeg target (edgeLens sq pts)) 0 <
          tol * (edgeLens sq pts).sum then
        match line_intersection
            (xsAt pts (segIdx (pickSeg target (edgeLens sq pts)) pts.length))
            (ysAt pts (segIdx (pickSeg target (edgeLens sq pts)) pts.length))
          with
        | none => (none, niter)
        | some p =>
          if matchesMax maxiter (niter + 1) then
            (some (removeSeg pts (pickSeg target (edgeLens sq pts)) p),
              niter + 1)
          else
            simplifyGo sq tol maxiter target fuel
              (removeSeg pts (pickSeg target (edgeLens sq pts)) p) (niter + 1)
      else (some pts, niter)
    else (some pts, niter)

/-- `simplify_polygon(in_poly, tol, maxiter, segment_to_remove)`: when a
target segment is given, `maxiter` is overridden with 1. -/
def simplify_polygon (sq : K → K) (pts : List (K × K)) (tol : K)
    (maxiter target : Option ℕ) : Option (List (K × K)) × ℕ :=
  simplifyGo sq tol (if target.isSome then some 1 else maxiter) target
    pts.length pts 0

lemma removeSeg_length (pts : List (K × K)) (k : ℕ) (p : K × K)
    (h : 0 < pts.length) : (removeSeg pts k p).length = pts.length - 1 := by
  rw [removeSeg, List.length_eraseIdx, List.length_set,
    if_pos (Nat.mod_lt _ h)]

lemma simplifyGo_count (sq : K → K) (tol : K) (maxiter target : Option ℕ) :
    ∀ fuel (pts : List (K × K)) (niter : ℕ),
      niter ≤ (simplifyGo sq tol maxiter target fuel pts niter).2 ∧
      (simplifyGo sq tol maxiter target fuel pts niter).2 - niter ≤
        pts.length - 4 ∧
      ∀ q, (simplifyGo sq tol maxiter target fuel pts niter).1 = some q →
        q.length + ((simplifyGo sq tol maxiter target fuel pts niter).2
          - niter) = pts.length := by
  intro fuel
  induction fuel with
  | zero =>
    intro pts niter
    refine ⟨le_refl _, by simp [simplifyGo], ?_⟩
    intro q hq
    rw [simplifyGo] at hq ⊢
    simp at hq
    simp [← hq]
  | succ m ih =>
    intro pts niter
    rw [simplifyGo]
    split
    next h4 =>
      split
      next hshort =>
        split
        next hli => simp
        next p hli =>
          have hlen2 :
              (removeSeg pts (pickSeg target (edgeLens sq pts)) p).length
                = pts.length - 1 :=
            removeSeg_length _ _ _ (by omega)
          split
          next hmx =>
            refine ⟨by simp, by simp; omega, ?_⟩
            intro q hq
            simp at hq
            subst hq
            simp [hlen2]
            omega
          next hmx =>
            obtain ⟨ih1, ih2, ih3⟩ := ih
              (removeSeg pts (pickSeg target (edgeLens sq pts)) p) (niter + 1)
            rw [hlen2] at ih2 ih3
            refine ⟨by omega, by omega, ?_⟩
            intro q hq
            have := ih3 q hq
            omega
      next hshort =>
        refine ⟨le_refl _, by simp, ?_⟩
        intro q hq
        simp at hq
        simp [← hq]
    next h4 =>
      refine ⟨le_refl _, by simp, ?_⟩
      intro q hq
      simp at hq
      simp [← hq]

/-- Claim C8: `simplify_polygon` (in its loop mode, no target segment)
never returns a polygon with more vertices than the input, each
completed iteration removes exactly one vertex, and the number of
removal iterations is at most `n - 4` for an `n`-vertex input. -/
theorem simplify_polygon_vertex_and_iteration_bound (sq : K → K) (tol : K)
    (maxiter : Option ℕ) (pts : List (K × K)) :
    (simplify_polygon sq pts tol maxiter none).2 ≤ pts.length - 4 ∧
    ∀ q, (simplify_polygon sq pts tol maxiter none).1 = some q →
      q.length + (simplify_polygon sq pts tol maxiter none).2 = pts.length ∧
      q.length ≤ pts.length := by
  obtain ⟨h1, h2, h3⟩ :=
    simplifyGo_count sq tol maxiter none pts.length pts 0
  rw [simplify_polygon]
  simp only [Option.isSome_none, Bool.false_eq_true, if_false]
  refine ⟨by omega, ?_⟩
  intro q hq
  have := h3 q hq
  constructor <;> omega

/-- Evaluation step of the loop: with more than 4 vertices and the
picked segment not short enough, the loop returns its input. -/
lemma simplifyGo_stop (sq : K → K) (tol : K) (maxiter target : Option ℕ)
    (fuel : ℕ) (pts : List (K × K)) (niter : ℕ) (h4 : 4 < pts.length)
    (hns : ¬ (edgeLens sq pts).getD (pickSeg target (edgeLens sq pts)) 0 <
      tol * (edgeLens sq pts).sum) :
    simplifyGo sq tol maxiter target (fuel + 1) pts niter
      = (some pts, niter) := by
  rw [simplifyGo, if_pos h4, if_neg hns]

/-- A strictly convex pentagon with squared edge lengths 64, 9, 25, 25,
9 (all perfect squares, so the square-root table below is exact). -/
def pentEq : List (ℚ × ℚ) := [(0, 0), (8, 0), (8, 3), (4, 6), (0, 3)]

/-- The real square root, tabulated at the arguments occurring for
`pentEq`. -/
def sqT1 : ℚ → ℚ := fun q =>
  if q = 64 then 8 else if q = 25 then 5 else if q = 9 then 3 else 0

/-- Witness for C8: running the simplification loop on the concrete
pentagon `pentEq` (whose shortest edge is not short enough to remove)
performs 0 ≤ 5 − 4 iterations and returns the pentagon itself, with
5 + 0 = 5 vertices. -/
theorem simplify_polygon_vertex_bound_witness :
    (simplify_polygon sqT1 pentEq (5/100 : ℚ) none none).2 ≤
        pentEq.length - 4 ∧
      pentEq.length + (simplify_polygon sqT1 pentEq (5/100 : ℚ) none none).2
        = pentEq.length ∧
      pentEq.length ≤ pentEq.length := by
  obtain ⟨h1, h2⟩ :=
    simplify_polygon_vertex_and_iteration_bound sqT1 (5/100 : ℚ) none pentEq
  have hel : edgeLens sqT1 pentEq = [8, 3, 5, 5, 3] := by
    norm_num [edgeLens, cyclicPairs, pentEq, List.rotate, sqT1]
  have hres : (simplify_polygon sqT1 pentEq (5/100 : ℚ) none none).1
      = some pentEq := by
    rw [simplify_polygon]
    simp only [Option.isSome_none, Bool.false_eq_true, if_false]
    have h5 : pentEq.length = 4 + 1 := rfl
    rw [h5, simplifyGo_stop]
    · norm_num [pentEq]
    · rw [hel]
      norm_num [pickSeg, argminK, argminGo]
  exact ⟨h1, (h2 pentEq hres).1, (h2 pentEq hres).2⟩

/-- Counterexample to claim C9 as stated: `pentEq` has more than 4
vertices and 0 is a valid edge index, yet calling `simplify_polygon`
with `target_segment = 0` removes nothing (the edge is not shorter than
`tol` times the perimeter): the output polygon is the input and zero
iterations are performed, so it is not the case that "exactly the one
specified edge is removed". -/
theorem simplify_targeted_counterexample :
    4 < pentEq.length ∧ (0 : ℕ) < pentEq.length ∧
      simplify_polygon sqT1 pentEq (5/100 : ℚ) none (some 0)
        = (some pentEq, 0) := by
  refine ⟨by norm_num [pentEq], by norm_num [pentEq], ?_⟩
  have hel : edgeLens sqT1 pentEq = [8, 3, 5, 5, 3] := by
    norm_num [edgeLens, cyclicPairs, pentEq, List.rotate, sqT1]
  rw [simplify_polygon]
  simp only [Option.isSome_some, if_true]
  have h5 : pentEq.length = 4 + 1 := rfl
  rw [h5, simplifyGo_stop]
  · norm_num [pentEq]
  · rw [hel]
    norm_num [pickSeg]

/-- Claim C9 (amended): for a polygon with more than 4 vertices and a
valid target edge index, *provided the specified edge is shorter than
`tol` times the perimeter and the two neighbouring edge lines are not
parallel*, exactly the specified edge is removed (vertex `k` is replaced
by the neighbouring-lines intersection and vertex `k+1` is deleted) and
exactly one removal iteration is performed, regardless of the `maxiter`
argument. -/
theorem simplify_targeted_single_removal (sq : K → K) (tol : K)
    (maxiter : Option ℕ) (pts : List (K × K)) (k : ℕ) (p : K × K)
    (hlen : 4 < pts.length) (hk : k < pts.length)
    (hshort : (edgeLens sq pts).getD k 0 < tol * (edgeLens sq pts).sum)
    (hint : line_intersection (xsAt pts (segIdx k pts.length))
        (ysAt pts (segIdx k pts.length)) = some p) :
    simplify_polygon sq pts tol maxiter (some k)
      = (some (removeSeg pts k p), 1) := by
  rw [simplify_polygon]
  obtain ⟨m, hm⟩ : ∃ m, pts.length = m + 1 := ⟨pts.length - 1, by omega⟩
  rw [hm, simplifyGo]
  have hpick : pickSeg (some k) (edgeLens sq pts) = k := rfl
  rw [if_pos hlen, hpick, if_pos hshort, hint]
  simp [matchesMax]

/-- A strictly convex pentagon with squared edge lengths 64, 25, 49, 25,
1; its shortest edge (index 4) is short enough to remove, and the
neighbouring edge lines meet at `(-4/3, 0)`. -/
def pentB : List (ℚ × ℚ) := [(0, 0), (8, 0), (11, 4), (4, 4), (0, 1)]

/-- The real square root, tabulated at the arguments occurring for
`pentB`. -/
def sqT2 : ℚ → ℚ := fun q =>
  if q = 64 then 8 else if q = 49 then 7 else if q = 25 then 5
  else if q = 1 then 1 else 0

/-- Witness for the amended C9: removing target edge 4 of `pentB`
replaces vertex 4 by `(-4/3, 0)`, deletes vertex 0, and performs exactly
one iteration even though `maxiter` is `none`. -/
theorem simplify_targeted_single_removal_witness :
    simplify_polygon sqT2 pentB (1/20 : ℚ) none (some 4)
      = (some [(8, 0), (11, 4), (4, 4), (-4/3, 0)], 1) := by
  have hx0 : xsAt pentB (segIdx 4 5) 0 = 4 := rfl
  have hx1 : xsAt pentB (segIdx 4 5) 1 = 0 := rfl
  have hx2 : xsAt pentB (segIdx 4 5) 2 = 0 := rfl
  have hx3 : xsAt pentB (segIdx 4 5) 3 = 8 := rfl
  have hy0 : ysAt pentB (segIdx 4 5) 0 = 4 := rfl
  have hy1 : ysAt pentB (segIdx 4 5) 1 = 1 := rfl
  have hy2 : ysAt pentB (segIdx 4 5) 2 = 0 := rfl
  have hy3 : ysAt pentB (segIdx 4 5) 3 = 0 := rfl
  have hlen5 : pentB.length = 5 := rfl
  have hint : line_intersection (xsAt pentB (segIdx 4 pentB.length))
      (ysAt pentB (segIdx 4 pentB.length)) = some (-4/3, 0) := by
    rw [hlen5, line_intersection, hx0, hx1, hx2, hx3, hy0, hy1, hy2, hy3]
    norm_num
  have h := simplify_targeted_single_removal sqT2 (1/20 : ℚ) none pentB 4
    (-4/3, 0) (by norm_num [pentB]) (by norm_num [pentB])
    (by norm_num [edgeLens, cyclicPairs, pentB, List.rotate, sqT2])
    hint
  rw [h, removeSeg, hlen5]
  norm_num [pentB]

/-! ### `order_polygon_points` and the quadrilateral candidates

`order_polygon_points` sorts the points by `np.arctan2` angle around
their centroid.  The angle comparison is implemented without
trigonometry: `atan2` ranks the open lower half plane (angles in
`(-π, 0)`), then the nonnegative x axis (angle 0), then the open upper
half plane (`(0, π)`), then the negative x axis (angle `π`); within an
open half plane the order is decided by the sign of the cross product.
`np.argsort` uses an unstable sort, so its order on exactly equal angles
is unspecified; the model keeps a fixed deterministic choice, which
matters for no theorem below. -/

/-- Mean of a list of field elements (`np.average`). -/
def listAvg (l : List K) : K := (l.foldr (· + ·) 0) / l.length

/-- Cross product of two planar vectors. -/
def cross (u v : K × K) : K := u.1 * v.2 - u.2 * v.1

/-- `atan2` rank of a vector: 0 for the open lower half plane, 1 for the
nonnegative x axis (angle 0, including the origin), 2 for the open upper
half plane, 3 for the negative x axis (angle π). -/
def angClass (v : K × K) : ℕ :=
  if v.2 < 0 then 0
  else if 0 < v.2 then 2
  else if 0 ≤ v.1 then 1
  else 3

/-- `atan2 (p - c) < atan2 (q - c)`, decided without trigonometry. -/
def angLT (c p q : K × K) : Bool :=
  if angClass (p.1 - c.1, p.2 - c.2) < angClass (q.1 - c.1, q.2 - c.2) then
    true
  else if angClass (p.1 - c.1, p.2 - c.2) = angClass (q.1 - c.1, q.2 - c.2) ∧
      (angClass (p.1 - c.1, p.2 - c.2) = 0 ∨
        angClass (p.1 - c.1, p.2 - c.2) = 2) then
    decide (0 < cross (p.1 - c.1, p.2 - c.2) (q.1 - c.1, q.2 - c.2))
  else false

/-- Insertion into a sorted list, before the first strictly larger
element. -/
def insortBy {α : Type} (lt : α → α → Bool) (a : α) : List α → List α
  | [] => [a]
  | b :: bs => if lt a b then a :: b :: bs else b :: insortBy lt a bs

/-- Insertion sort with a strict comparison. -/
def sortBy {α : Type} (lt : α → α → Bool) (l : List α) : List α :=
  l.foldr (insortBy lt) []

/-- `order_polygon_points(x_p, y_p)`: the points sorted by angle around
their centroid. -/
def order_polygon_points (pts : List (K × K)) : List (K × K) :=
  sortBy (angLT (listAvg (pts.map Prod.fst), listAvg (pts.map Prod.snd))) pts

/-- `generate_quad_corners(indices, x_s, y_s)`: the four intersection
points of the extended polygon segments selected by `(i, j, k, l)`; the
arrays are initialised with the `nan` sentinel (here `none`) and left
untouched unless `i < j < k < l`. -/
def generate_quad_corners (i j k l : ℕ) (pts : List (K × K)) :
    List (Option (K × K)) :=
  if j ≤ i ∨ k ≤ j ∨ l ≤ k then [none, none, none, none]
  else
    [line_intersection (xsAt pts (generate_point_indices i j pts.length))
       (ysAt pts (generate_point_indices i j pts.length)),
     line_intersection (xsAt pts (generate_point_indices j k pts.length))
       (ysAt pts (generate_point_indices j k pts.length)),
     line_intersection (xsAt pts (generate_point_indices k l pts.length))
       (ysAt pts (generate_point_indices k l pts.length)),
     line_intersection (xsAt pts (generate_point_indices l i pts.length))
       (ysAt pts (generate_point_indices l i pts.length))]

/-- All-or-nothing collection of the corner options (the
`np.sum(np.isnan(...)) > 0` test of the source: a quadrilateral is built
only when no corner is `nan`). -/
def allSome {α : Type} : List (Option α) → Option (List α)
  | [] => some []
  | none :: _ => none
  | some a :: rest =>
      match allSome rest with
      | none => none
      | some as2 => some (a :: as2)

/-- The 0.01 % uniform outward dilation of the corner points about their
centroid (`xis_ave + 1.0001 * (xis - xis_ave)`). -/
def dilateCorners (cs : List (K × K)) : List (K × K) :=
  cs.map (fun c =>
    (listAvg (cs.map Prod.fst) +
       (10001 / 10000 : K) * (c.1 - listAvg (cs.map Prod.fst)),
     listAvg (cs.map Prod.snd) +
       (10001 / 10000 : K) * (c.2 - listAvg (cs.map Prod.snd))))

/-- One candidate quadrilateral from one index 4-tuple: the dilated,
angle-ordered corner quadrilateral, retained only if every vertex of the
(ordered) input polygon passes the containment test `inPt` (the shapely
`quad.intersects(Point) or quad.touches(Point)` test, an external
collaborator). -/
def quadFromTuple (inPt : (K × K) → List (K × K) → Bool)
    (ordered : List (K × K)) (i j k l : ℕ) : Option (List (K × K)) :=
  (allSome (generate_quad_corners i j k l ordered)).bind fun cs =>
    if ordered.all (fun v => inPt v (order_polygon_points (dilateCorners cs)))
    then some (order_polygon_points (dilateCorners cs))
    else none

/-- `generate_quad_candidates(in_poly)`: all candidate quadrilaterals,
iterating `itertools.product(range(n), repeat=4)` in lexicographic
order. -/
def generate_quad_candidates (inPt : (K × K) → List (K × K) → Bool)
    (in_poly : List (K × K)) : List (List (K × K)) :=
  (List.range (order_polygon_points in_poly).length).bind fun i =>
    (List.range (order_polygon_points in_poly).length).bind fun j =>
      (List.range (order_polygon_points in_poly).length).bind fun k =>
        (List.range (order_polygon_points in_poly).length).filterMap fun l =>
          quadFromTuple inPt (order_polygon_points in_poly) i j k l

lemma quadFromTuple_eq_some (inPt : (K × K) → List (K × K) → Bool)
    (ordered : List (K × K)) (i j k l : ℕ) (q : List (K × K)) :
    quadFromTuple inPt ordered i j k l = some q ↔
      ∃ cs, allSome (generate_quad_corners i j k l ordered) = some cs ∧
        q = order_polygon_points (dilateCorners cs) ∧
        ordered.all (fun v => inPt v q) = true := by
  rw [quadFromTuple]
  cases h : allSome (generate_quad_corners i j k l ordered) with
  | none => simp
  | some cs =>
    rw [Option.some_bind]
    by_cases hall :
        ordered.all
          (fun v => inPt v (order_polygon_points (dilateCorners cs))) = true
    · rw [if_pos hall]
      simp only [Option.some.injEq]
      constructor
      · rintro rfl
        exact ⟨cs, rfl, rfl, hall⟩
      · rintro ⟨cs', hcs', rfl, _⟩
        obtain rfl := hcs'
        rfl
    · rw [if_neg hall]
      constructor
      · intro h'
        exact absurd h' (by simp)
      · rintro ⟨cs', hcs', rfl, hall'⟩
        obtain rfl := Option.some.inj hcs'
        exact absurd hall' hall

/-- Counterexample to claim C5 as stated: the index tuple
`(0, 0, 1, 2)` satisfies `i ≤ j ≤ k ≤ l`, yet `generate_quad_corners`
skips it (the source requires strict inequalities `i < j < k < l`) and
returns the all-`nan` sentinel corner array, so no candidate is formed
from its intersections. -/
theorem generate_quad_corners_nonstrict_counterexample :
    ((0 : ℕ) ≤ 0 ∧ (0 : ℕ) ≤ 1 ∧ (1 : ℕ) ≤ 2) ∧
      generate_quad_corners (K := ℚ) 0 0 1 2 [(0, 0), (1, 0), (1, 1), (0, 1)]
        = [none, none, none, none] := by
  refine ⟨⟨le_refl 0, by norm_num, by norm_num⟩, ?_⟩
  rw [generate_quad_corners, if_pos]
  exact Or.inl (le_refl 0)

/-- Claim C5 (amended): in `generate_quad_candidates`, an index 4-tuple
produces corner intersections iff it is strictly increasing
(`i < j < k < l`; with equalities allowed the tuple is skipped, leaving
the `nan` sentinel corners); when it does, the corners are exactly the
four pairwise intersections of the extended edges `(i,j)`, `(j,k)`,
`(k,l)`, `(l,i)`; and a quadrilateral is in the candidate list iff it
arises from such a tuple with all four corners defined, equals the
0.01 %-dilated angle-ordered corner quadrilateral, and every vertex of
the (ordered) polygon passes the containment test on it. -/
theorem generate_quad_candidates_spec (inPt : (K × K) → List (K × K) → Bool)
    (in_poly : List (K × K)) :
    (∀ i j k l (pts : List (K × K)), ¬(i < j ∧ j < k ∧ k < l) →
      generate_quad_corners i j k l pts = [none, none, none, none]) ∧
    (∀ i j k l (pts : List (K × K)), i < j → j < k → k < l →
      generate_quad_corners i j k l pts =
        [line_intersection (xsAt pts (generate_point_indices i j pts.length))
           (ysAt pts (generate_point_indices i j pts.length)),
         line_intersection (xsAt pts (generate_point_indices j k pts.length))
           (ysAt pts (generate_point_indices j k pts.length)),
         line_intersection (xsAt pts (generate_point_indices k l pts.length))
           (ysAt pts (generate_point_indices k l pts.length)),
         line_intersection (xsAt pts (generate_point_indices l i pts.length))
           (ysAt pts (generate_point_indices l i pts.length))]) ∧
    (∀ q, q ∈ generate_quad_candidates inPt in_poly ↔
      ∃ i j k l cs,
        i < (order_polygon_points in_poly).length ∧
        j < (order_polygon_points in_poly).length ∧
        k < (order_polygon_points in_poly).length ∧
        l < (order_polygon_points in_poly).length ∧
        allSome (generate_quad_corners i j k l (order_polygon_points in_poly))
          = some cs ∧
        q = order_polygon_points (dilateCorners cs) ∧
        (order_polygon_points in_poly).all (fun v => inPt v q) = true) := by
  refine ⟨?_, ?_, ?_⟩
  · intro i j k l pts h
    rw [generate_quad_corners, if_pos (by omega)]
  · intro i j k l pts h1 h2 h3
    rw [generate_quad_corners, if_neg (by omega)]
  · intro q
    rw [generate_quad_candidates]
    simp only [List.mem_bind, List.mem_filterMap, List.mem_range]
    constructor
    · rintro ⟨i, hi, j, hj, k, hk, l, hl, hq⟩
      obtain ⟨cs, h1, h2, h3⟩ := (quadFromTuple_eq_some _ _ _ _ _ _ _).mp hq
      exact ⟨i, j, k, l, cs, hi, hj, hk, hl, h1, h2, h3⟩
    · rintro ⟨i, j, k, l, cs, hi, hj, hk, hl, h1, h2, h3⟩
      exact ⟨i, hi, j, hj, k, hk, l, hl,
        (quadFromTuple_eq_some _ _ _ _ _ _ _).mpr ⟨cs, h1, h2, h3⟩⟩

/-- Witness for C5 at a concrete input: the non-strict tuple
`(1, 1, 2, 3)` on a concrete square is skipped, yielding the sentinel
corners. -/
theorem generate_quad_candidates_spec_witness :
    generate_quad_corners (K := ℚ) 1 1 2 3 [(0, 0), (2, 0), (2, 2), (0, 2)]
      = [none, none, none, none] :=
  (generate_quad_candidates_spec (K := ℚ) (fun _ _ => true) []).1
    1 1 2 3 [(0, 0), (2, 0), (2, 2), (0, 2)] (by omega)

/-! ### Areas, the form factor and `get_bounding_quad` -/

/-- Shapely `.area` of a simple polygon: half the absolute value of the
shoelace sum. -/
def polyArea (pts : List (K × K)) : K :=
  |(cyclicPairs pts).foldr
      (fun pq acc => (pq.1.1 * pq.2.2 - pq.2.1 * pq.1.2) + acc) 0| / 2

/-- Shapely `.length` of a polygon: the perimeter. -/
def polyLength (sq : K → K) (pts : List (K × K)) : K := (edgeLens sq pts).sum

/-- `np.amin` over a nonempty list of field elements. -/
def listMinK : List K → K
  | [] => 0
  | a :: rest => rest.foldl min a

/-- `polygon_form_factor(poly)`:
`poly.area / (poly.length * d_0)` where `d_0` is the shortest edge
(`np.diff` over the closed coordinate ring gives all cyclic edges). -/
def polygon_form_factor (sq : K → K) (pts : List (K × K)) : K :=
  polyArea pts / (polyLength sq pts * listMinK (edgeLens sq pts))

/-- `get_bounding_quad(hull_poly)`: simplify the hull, generate the
candidate quadrilaterals, return the one of minimum area
(`np.argmin` picks the first minimum).  A `nan`-poisoned
simplification or an empty candidate list raises in the source
(`np.argmin` of an empty sequence is a `ValueError`); both are the
failure result `none`. -/
def get_bounding_quad (sq : K → K)
    (inPt : (K × K) → List (K × K) → Bool) (hull_poly : List (K × K)) :
    Option (List (K × K)) :=
  match (simplify_polygon sq hull_poly (1/20 : K) none none).1 with
  | none => none
  | some simple_poly =>
    match generate_quad_candidates inPt simple_poly with
    | [] => none
    | q :: qs =>
      some ((q :: qs).getD (argminK ((q :: qs).map polyArea)) [])

/-- Strict convexity and counterclockwise orientation of a vertex list:
every pair of cyclically consecutive edges makes a strict left turn. -/
def convexCCW (pts : List (K × K)) : Prop :=
  (cyclicPairs ((cyclicPairs pts).map
      (fun pq => (pq.2.1 - pq.1.1, pq.2.2 - pq.1.2)))).all
    (fun uv => decide (0 < cross uv.1 uv.2)) = true

/-- Evaluation step of the loop: a short segment whose neighbouring edge
lines are parallel poisons the polygon with `nan` (failure). -/
lemma simplifyGo_fail (sq : K → K) (tol : K) (maxiter target : Option ℕ)
    (fuel : ℕ) (pts : List (K × K)) (niter : ℕ) (h4 : 4 < pts.length)
    (hshort : (edgeLens sq pts).getD (pickSeg target (edgeLens sq pts)) 0 <
      tol * (edgeLens sq pts).sum)
    (hli : line_intersection
        (xsAt pts (segIdx (pickSeg target (edgeLens sq pts)) pts.length))
        (ysAt pts (segIdx (pickSeg target (edgeLens sq pts)) pts.length))
      = none) :
    simplifyGo sq tol maxiter target (fuel + 1) pts niter = (none, niter) := by
  rw [simplifyGo, if_pos h4, if_pos hshort, hli]

/-- A strictly convex counterclockwise pentagon (a valid convex hull
with 5 vertices) whose shortest edge lies between two parallel edges:
edge lengths 100, 5, 94.05, 5.05, 5 (all rational), shortest edge at
index 1 (between the two horizontal edges). -/
def pentC : List (ℚ × ℚ) := [(0, 0), (100, 0), (103, 4), (179/20, 4), (4, 3)]

/-- The real square root, tabulated at the squared edge lengths of
`pentC` (all perfect squares of rationals). -/
def sqT3 : ℚ → ℚ := fun q =>
  if q = 10000 then 100 else if q = 25 then 5
  else if q = 3538161/400 then 1881/20
  else if q = 10201/400 then 101/20 else 0

/-- On `pentC` the geometry pipeline fails: the shortest edge is picked
for removal but its neighbouring edge lines are parallel. -/
lemma get_bounding_quad_pentC_none :
    get_bounding_quad sqT3 (fun _ _ => true) pentC = none := by
  have hel : edgeLens sqT3 pentC = [100, 5, 1881/20, 101/20, 5] := by
    norm_num [edgeLens, cyclicPairs, pentC, List.rotate, sqT3]
  have hpick : pickSeg none (edgeLens sqT3 pentC) = 1 := by
    rw [hel]; norm_num [pickSeg, argminK, argminGo]
  have hlenC : pentC.length = 5 := rfl
  have hx0 : xsAt pentC (segIdx 1 5) 0 = 0 := rfl
  have hx1 : xsAt pentC (segIdx 1 5) 1 = 100 := rfl
  have hx2 : xsAt pentC (segIdx 1 5) 2 = 103 := rfl
  have hx3 : xsAt pentC (segIdx 1 5) 3 = 179/20 := rfl
  have hy0 : ysAt pentC (segIdx 1 5) 0 = 0 := rfl
  have hy1 : ysAt pentC (segIdx 1 5) 1 = 0 := rfl
  have hy2 : ysAt pentC (segIdx 1 5) 2 = 4 := rfl
  have hy3 : ysAt pentC (segIdx 1 5) 3 = 4 := rfl
  have hli : line_intersection (xsAt pentC (segIdx (pickSeg none
      (edgeLens sqT3 pentC)) pentC.length))
      (ysAt pentC (segIdx (pickSeg none (edgeLens sqT3 pentC))
        pentC.length)) = none := by
    rw [hpick, hlenC, line_intersection, hx0, hx1, hx2, hx3, hy0, hy1,
      hy2, hy3]
    norm_num
  have hsimp : (simplify_polygon sqT3 pentC (1/20 : ℚ) none none).1
      = none := by
    rw [simplify_polygon]
    simp only [Option.isSome_none, Bool.false_eq_true, if_false]
    have h5 : pentC.length = 4 + 1 := rfl
    rw [h5, simplifyGo_fail sqT3 (1/20 : ℚ) none none 4 pentC 0
      (by norm_num [pentC])
      (by rw [hel]; norm_num [pickSeg, argminK, argminGo])
      hli]
  rw [get_bounding_quad, hsimp]

/-- Claim C2, evaluated at the failing input: `pentC` is a strictly
convex counterclockwise hull with more than 4 vertices, yet
`get_bounding_quad` on it produces no bounding quadrilateral at all
(in the source, `simplify_polygon` hits a parallel-line intersection,
the `nan` coordinates poison every candidate and `np.argmin` of the
empty candidate array raises a `ValueError`), contradicting the
function's own contract of returning the minimum-area bounding
quadrilateral of the convex hull. -/
theorem get_bounding_quad_crash_on_valid_hull :
    convexCCW pentC ∧ 4 < pentC.length ∧
      get_bounding_quad sqT3 (fun _ _ => true) pentC = none :=
  ⟨by norm_num [convexCCW, cyclicPairs, List.rotate, pentC, cross],
    by norm_num [pentC], get_bounding_quad_pentC_none⟩

/-! ### The card segmenter (`MTGCardDetector.segment_image`)

The OpenCV front end (grayscale, threshold, `findContours`,
`contourArea` sorting, `convexHull`) and the rectification
(`four_point_transform`, `shapely.affinity.scale`) are external
collaborators: the segmenter is modelled on the list of contours paired
with their convex-hull polygons, in the (descending-area) order the
source iterates them, with the corner evaluator `qcDiff`
(`quad_corner_diff`), the bounding-quad routine `getBQ` and the warp
`warp` as function parameters.  The theorems hold for every
instantiation, in particular for the real collaborators. -/

/-- `CardCandidate.__init__`: one segmented region. -/
structure CardCandidate (Cnt Img Q Fr : Type) where
  image : Img
  contour : Cnt
  bounding_quad : Q
  is_recognized : Bool
  is_fragment : Bool
  image_area_fraction : Fr
  name : String
deriving DecidableEq, Repr

/-- The contour loop of `segment_image`: `lca` is the
largest-accepted-card-area state, initialised to the sentinel `0.01`;
the loop breaks as soon as a hull area falls below `0.7 * lca` or below
a thousandth of the image area; for each surviving contour the bounding
quadrilateral is computed (its failure, `none`, propagates — the source
has no exception handler), the candidate is accepted iff its quad area
lies strictly between `0.7 * lca` and `0.99 *` image area, the corner
score is below `0.35` and the form factor lies strictly between `0.27`
and `0.32`; on acceptance while `lca` still equals the sentinel, `lca`
is set to the accepted quad area. -/
def segmentGo {Cnt Img : Type} (sq : K → K)
    (getBQ : List (K × K) → Option (List (K × K)))
    (qcDiff : List (K × K) → List (K × K) → K)
    (warp : List (K × K) → K → Img) (imageArea : K) :
    K → List (Cnt × List (K × K)) →
      Option (List (CardCandidate Cnt Img (List (K × K)) K))
  | _, [] => some []
  | lca, (cnt, phull) :: rest =>
    if polyArea phull < 7/10 * lca ∨ polyArea phull < imageArea / 1000 then
      some []
    else
      (getBQ phull).bind fun bq =>
        if (7/10 * lca < polyArea bq ∧ polyArea bq < imageArea * 99/100) ∧
            qcDiff phull bq < 35/100 ∧
            (27/100 < polygon_form_factor sq bq ∧
              polygon_form_factor sq bq < 32/100) then
          (segmentGo sq getBQ qcDiff warp imageArea
              (if lca = 1/100 then polyArea bq else lca) rest).map
            (fun cs =>
              { image := warp bq (min 1 (1 - qcDiff phull bq * 22/100)),
                contour := cnt, bounding_quad := bq,
                is_recognized := false, is_fragment := false,
                image_area_fraction := polyArea bq / imageArea,
                name := "unknown" } :: cs)
        else segmentGo sq getBQ qcDiff warp imageArea lca rest

/-- `MTGCardDetector.segment_image`. -/
def segment_image {Cnt Img : Type} (sq : K → K)
    (getBQ : List (K × K) → Option (List (K × K)))
    (qcDiff : List (K × K) → List (K × K) → K)
    (warp : List (K × K) → K → Img) (imageArea : K)
    (contours : List (Cnt × List (K × K))) :
    Option (List (CardCandidate Cnt Img (List (K × K)) K)) :=
  segmentGo sq getBQ qcDiff warp imageArea (1/100 : K) contours

/-- The segmenter as claim C3 describes it, tracking "a candidate has
been accepted" explicitly instead of comparing `lca` with the sentinel:
the loop stops at the same area conditions, appends under the same
acceptance conditions, and on the *first* acceptance sets `lca` to the
accepted quadrilateral's area. -/
def segmentClaim {Cnt Img : Type} (sq : K → K)
    (getBQ : List (K × K) → Option (List (K × K)))
    (qcDiff : List (K × K) → List (K × K) → K)
    (warp : List (K × K) → K → Img) (imageArea : K) :
    K → Bool → List (Cnt × List (K × K)) →
      Option (List (CardCandidate Cnt Img (List (K × K)) K))
  | _, _, [] => some []
  | lca, accepted, (cnt, phull) :: rest =>
    if polyArea phull < 7/10 * lca ∨ polyArea phull < imageArea / 1000 then
      some []
    else
      (getBQ phull).bind fun bq =>
        if (7/10 * lca < polyArea bq ∧ polyArea bq < imageArea * 99/100) ∧
            qcDiff phull bq < 35/100 ∧
            (27/100 < polygon_form_factor sq bq ∧
              polygon_form_factor sq bq < 32/100) then
          (segmentClaim sq getBQ qcDiff warp imageArea
              (if accepted then lca else polyArea bq) true rest).map
            (fun cs =>
              { image := warp bq (min 1 (1 - qcDiff phull bq * 22/100)),
                contour := cnt, bounding_quad := bq,
                is_recognized := false, is_fragment := false,
                image_area_fraction := polyArea bq / imageArea,
                name := "unknown" } :: cs)
        else segmentClaim sq getBQ qcDiff warp imageArea lca accepted rest

lemma segmentGo_eq_claim {Cnt Img : Type} (sq : K → K)
    (getBQ : List (K × K) → Option (List (K × K)))
    (qcDiff : List (K × K) → List (K × K) → K)
    (warp : List (K × K) → K → Img) (imageArea : K)
    (contours : List (Cnt × List (K × K)))
    (hne : ∀ pr ∈ contours, ∀ bq, getBQ pr.2 = some bq →
      polyArea bq ≠ (1/100 : K)) :
    ∀ (lca : K) (accepted : Bool),
      (accepted = false → lca = 1/100) →
      (accepted = true → lca ≠ 1/100) →
      segmentGo sq getBQ qcDiff warp imageArea
          lca contours =
        segmentClaim sq getBQ qcDiff warp imageArea lca accepted contours := by
  induction contours with
  | nil => intro lca accepted _ _; rfl
  | cons pr rest ih =>
    intro lca accepted hfalse htrue
    obtain ⟨cnt, phull⟩ := pr
    rw [segmentGo, segmentClaim]
    split
    next => rfl
    next hbreak =>
      cases hbq : getBQ phull with
      | none => rfl
      | some bq =>
        rw [Option.some_bind, Option.some_bind]
        have hbqne : polyArea bq ≠ (1/100 : K) :=
          hne (cnt, phull) (by simp) bq hbq
        have hrest : ∀ pr ∈ rest, ∀ bq2, getBQ pr.2 = some bq2 →
            polyArea bq2 ≠ (1/100 : K) :=
          fun pr hpr bq2 h2 => hne pr (by simp [hpr]) bq2 h2
        split
        next haccept =>
          have hlca_eq : (if lca = 1/100 then polyArea bq else lca)
              = (if accepted = true then lca else polyArea bq) := by
            cases accepted with
            | false =>
              rw [hfalse rfl]
              simp
            | true =>
              rw [if_neg (htrue rfl)]
              simp
          rw [hlca_eq]
          have ihr := ih hrest (if accepted = true then lca else polyArea bq)
            true
            (by intro h; cases h)
            (by intro _
                cases accepted with
                | true => simpa using htrue rfl
                | false => simpa using hbqne)
          rw [ihr]
        next hreject =>
          exact ih hrest lca accepted hfalse htrue

/-- Claim C3: during segmentation, a processed contour's candidate is
appended iff its bounding quadrilateral's area lies strictly between
`0.7·lca` and `0.99·image_area`, its corner score is below `0.35` and
its form factor `area/(perimeter × shortest edge)` lies strictly
between `0.27` and `0.32`; on the first acceptance `lca` is updated
from its sentinel `0.01` to that candidate's quadrilateral area; and
the contour loop stops as soon as a hull area falls below `0.7·lca` or
below `0.1 %` of the image area.  Stated as: the implementation equals
the claim-side description for every collaborator instantiation,
provided no accepted quadrilateral has area exactly `0.01` (which would
alias the sentinel). -/
theorem segment_image_matches_claim {Cnt Img : Type} (sq : K → K)
    (getBQ : List (K × K) → Option (List (K × K)))
    (qcDiff : List (K × K) → List (K × K) → K)
    (warp : List (K × K) → K → Img) (imageArea : K)
    (contours : List (Cnt × List (K × K)))
    (hne : ∀ pr ∈ contours, ∀ bq, getBQ pr.2 = some bq →
      polyArea bq ≠ (1/100 : K)) :
    segment_image sq getBQ qcDiff warp imageArea contours =
      segmentClaim sq getBQ qcDiff warp imageArea (1/100 : K) false
        contours := by
  rw [segment_image]
  exact segmentGo_eq_claim sq getBQ qcDiff warp imageArea contours hne
    (1/100 : K) false (fun _ => rfl) (fun h => by cases h)

/-- A 7×10 rectangle (card-like aspect ratio). -/
def rectQ : List (ℚ × ℚ) := [(0, 0), (7, 0), (7, 10), (0, 10)]

/-- Witness for C3: a concrete one-contour segmentation run agrees with
the claim-side description (the hypothesis that no accepted area equals
the sentinel `0.01` holds: the quadrilateral's area is 70). -/
theorem segment_image_matches_claim_witness :
    segment_image (fun q => q)
        (fun _ => some rectQ) (fun _ _ => (0 : ℚ)) (fun _ _ => ()) 1000
        [((), rectQ)] =
      segmentClaim (fun q => q) (fun _ => some rectQ) (fun _ _ => (0 : ℚ))
        (fun _ _ => ()) 1000 (1/100 : ℚ) false [((), rectQ)] := by
  have harea : polyArea rectQ = 70 := by
    norm_num [polyArea, cyclicPairs, List.rotate, rectQ]
  refine segment_image_matches_claim (fun q => q) (fun _ => some rectQ)
    (fun _ _ => (0 : ℚ)) (fun _ _ => ()) 1000 [((), rectQ)] ?_
  intro pr hpr bq hbq
  obtain rfl := Option.some.inj hbq
  rw [harea]
  norm_num

/-- Counterexample to claim C4 as stated: with the real
`get_bounding_quad` as collaborator, the valid convex hull `pentC`
passes the area gate (so the region is processed), `get_bounding_quad`
fails on it, and `segment_image` aborts with the propagated failure
(`none`) instead of skipping the region and continuing. -/
theorem segment_image_failure_counterexample :
    ¬(polyArea pentC < 7/10 * (1/100 : ℚ) ∨
        polyArea pentC < (100000 : ℚ) / 1000) ∧
      segment_image sqT3
        (get_bounding_quad sqT3 (fun _ _ => true)) (fun _ _ => (0 : ℚ))
        (fun _ _ => ()) 100000 [((), pentC)] = none := by
  have habs : |(15741 : ℚ)/20| = 15741/20 := abs_of_nonneg (by norm_num)
  have harea : polyArea pentC = 15741/40 := by
    norm_num [polyArea, cyclicPairs, List.rotate, pentC, habs]
  have hproc : ¬(polyArea pentC < 7/10 * (1/100 : ℚ) ∨
      polyArea pentC < (100000 : ℚ) / 1000) := by
    rw [harea]; norm_num
  refine ⟨hproc, ?_⟩
  rw [segment_image, segmentGo, if_neg hproc, get_bounding_quad_pentC_none]
  rfl

/-- Claim C4 (amended): a geometry failure inside `get_bounding_quad`
(in particular an empty quadrilateral-candidate set) on a region that
passes the area gate is fatal to the whole segmentation of the image:
the exception propagates out of `segment_image` (no candidates are
returned at all), and the region is not skipped. -/
theorem segment_image_failure_propagates {Cnt Img : Type} (sq : K → K)
    (getBQ : List (K × K) → Option (List (K × K)))
    (qcDiff : List (K × K) → List (K × K) → K)
    (warp : List (K × K) → K → Img) (imageArea lca : K) (cnt : Cnt)
    (phull : List (K × K)) (rest : List (Cnt × List (K × K)))
    (hproc : ¬(polyArea phull < 7/10 * lca ∨
      polyArea phull < imageArea / 1000))
    (hfail : getBQ phull = none) :
    segmentGo sq getBQ qcDiff warp imageArea lca ((cnt, phull) :: rest)
      = none := by
  rw [segmentGo, if_neg hproc, hfail]
  rfl

/-- Witness for the amended C4 at a concrete state: the failure on
`pentC` propagates out of the loop from any reachable state. -/
theorem segment_image_failure_propagates_witness :
    segmentGo sqT3
      (get_bounding_quad sqT3 (fun _ _ => true)) (fun _ _ => (0 : ℚ))
      (fun _ _ => ()) 100000 (1/100 : ℚ) [((), pentC)] = none := by
  refine segment_image_failure_propagates sqT3
    (get_bounding_quad sqT3 (fun _ _ => true)) (fun _ _ => (0 : ℚ))
    (fun _ _ => ()) 100000 (1/100 : ℚ) () pentC [] ?_
    get_bounding_quad_pentC_none
  have habs : |(15741 : ℚ)/20| = 15741/20 := abs_of_nonneg (by norm_num)
  have harea : polyArea pentC = 15741/40 := by
    norm_num [polyArea, cyclicPairs, List.rotate, pentC, habs]
  rw [harea]
  norm_num

/-! ### The candidate filter in `MTGCardDetector.run_recognition`

The recognition pass iterates the candidate list; for each candidate an
inner pass over the whole (current) list marks it a fragment when some
candidate already recognized-and-not-fragment contains it; only
non-fragments are fed to `recognize_segment`.  Shapely's
`Polygon.within` and `recognize_segment` (that is, `phash_compare` on
the warped pixel data) are external collaborators, abstracted as
`within` and `recog`; the second component of the result records the
indices on which `recognize_segment` was called. -/

/-- `CardCandidate.contains`: `a.contains(b)` iff `b`'s bounding quad
lies within `a`'s. -/
def candContains {Cnt Img Q Fr : Type} (within : Q → Q → Bool)
    (a b : CardCandidate Cnt Img Q Fr) : Bool :=
  within b.bounding_quad a.bounding_quad

/-- One iteration of the outer loop of `run_recognition` at index `i`:
the inner containment pass, then recognition unless the candidate is a
fragment.  The boolean reports whether `recognize_segment` was
called. -/
def runStep {Cnt Img Q Fr : Type} (within : Q → Q → Bool)
    (recog : Img → Bool × String)
    (cs : List (CardCandidate Cnt Img Q Fr)) (i : ℕ) :
    List (CardCandidate Cnt Img Q Fr) × Bool :=
  match cs.get? i with
  | none => (cs, false)
  | some c =>
    if c.is_fragment || cs.any (fun o =>
        o.is_recognized && !o.is_fragment && candContains within o c) then
      (cs.set i { c with is_fragment := true }, false)
    else
      (cs.set i { c with is_recognized := (recog c.image).1,
                         name := (recog c.image).2 }, true)

/-- The outer loop over a list of indices, accumulating the indices on
which `recognize_segment` was called. -/
def runGo {Cnt Img Q Fr : Type} (within : Q → Q → Bool)
    (recog : Img → Bool × String) :
    List (CardCandidate Cnt Img Q Fr) → List ℕ → List ℕ →
      List (CardCandidate Cnt Img Q Fr) × List ℕ
  | cs, calls, [] => (cs, calls)
  | cs, calls, i :: rest =>
    runGo within recog (runStep within recog cs i).1
      (if (runStep within recog cs i).2 then calls ++ [i] else calls) rest

/-- The candidate-filter part of `MTGCardDetector.run_recognition`. -/
def run_recognition {Cnt Img Q Fr : Type} (within : Q → Q → Bool)
    (recog : Img → Bool × String)
    (cs : List (CardCandidate Cnt Img Q Fr)) :
    List (CardCandidate Cnt Img Q Fr) × List ℕ :=
  runGo within recog cs [] (List.range cs.length)

lemma runStep_length {Cnt Img Q Fr : Type} (within : Q → Q → Bool)
    (recog : Img → Bool × String)
    (cs : List (CardCandidate Cnt Img Q Fr)) (i : ℕ) :
    (runStep within recog cs i).1.length = cs.length := by
  rw [runStep]
  split
  next => rfl
  next c hc =>
    split <;> simp

lemma runGo_length {Cnt Img Q Fr : Type} (within : Q → Q → Bool)
    (recog : Img → Bool × String) :
    ∀ (l : List ℕ) (cs : List (CardCandidate Cnt Img Q Fr)) (calls : List ℕ),
      (runGo within recog cs calls l).1.length = cs.length := by
  intro l
  induction l with
  | nil => intro cs calls; rfl
  | cons i rest ih =>
    intro cs calls
    rw [runGo]
    rw [ih]
    exact runStep_length within recog cs i

lemma runStep_get_ne {Cnt Img Q Fr : Type} (within : Q → Q → Bool)
    (recog : Img → Bool × String)
    (cs : List (CardCandidate Cnt Img Q Fr)) (i j : ℕ) (h : i ≠ j) :
    (runStep within recog cs i).1.get? j = cs.get? j := by
  rw [runStep]
  split
  next => rfl
  next c hc =>
    split
    · exact List.get?_set_ne _ _ h
    · exact List.get?_set_ne _ _ h

lemma runGo_get_ne {Cnt Img Q Fr : Type} (within : Q → Q → Bool)
    (recog : Img → Bool × String) :
    ∀ (l : List ℕ) (cs : List (CardCandidate Cnt Img Q Fr)) (calls : List ℕ)
      (j : ℕ), (∀ x ∈ l, x ≠ j) →
      (runGo within recog cs calls l).1.get? j = cs.get? j := by
  intro l
  induction l with
  | nil => intro cs calls j _; rfl
  | cons i rest ih =>
    intro cs calls j hl
    rw [runGo, ih _ _ _ (fun x hx => hl x (by simp [hx]))]
    exact runStep_get_ne within recog cs i j (hl i (by simp))

lemma runGo_calls_mem {Cnt Img Q Fr : Type} (within : Q → Q → Bool)
    (recog : Img → Bool × String) :
    ∀ (l : List ℕ) (cs : List (CardCandidate Cnt Img Q Fr)) (calls : List ℕ)
      (x : ℕ), x ∈ (runGo within recog cs calls l).2 →
      x ∈ calls ∨ x ∈ l := by
  intro l
  induction l with
  | nil => intro cs calls x hx; exact Or.inl hx
  | cons i rest ih =>
    intro cs calls x hx
    rw [runGo] at hx
    rcases ih _ _ x hx with h | h
    · by_cases hci : (runStep within recog cs i).2 = true
      · rw [if_pos hci] at h
        rcases List.mem_append.mp h with h' | h'
        · exact Or.inl h'
        · simp at h'
          exact Or.inr (by simp [h'])
      · rw [if_neg hci] at h
        exact Or.inl h
    · exact Or.inr (by simp [h])

lemma range_split (j n : ℕ) (h : j < n) :
    List.range n = List.range (j + 1) ++ List.range' (j + 1) (n - (j + 1)) := by
  have key := List.range'_append 0 (j + 1) (n - (j + 1)) 1
  simp only [one_mul, zero_add] at key
  have hn : n - (j + 1) + (j + 1) = n := by omega
  rw [hn] at key
  rw [List.range_eq_range', List.range_eq_range', ← key]

lemma get?_some_lt {α : Type} {l : List α} {n : ℕ} {a : α}
    (h : l.get? n = some a) : n < l.length := by
  by_contra hn
  rw [List.get?_eq_none.mpr (by omega)] at h
  cases h

lemma runGo_append {Cnt Img Q Fr : Type} (within : Q → Q → Bool)
    (recog : Img → Bool × String) :
    ∀ (l1 l2 : List ℕ) (cs : List (CardCandidate Cnt Img Q Fr))
      (calls : List ℕ),
      runGo within recog cs calls (l1 ++ l2) =
        runGo within recog (runGo within recog cs calls l1).1
          (runGo within recog cs calls l1).2 l2 := by
  intro l1
  induction l1 with
  | nil => intro l2 cs calls; rfl
  | cons i rest ih =>
    intro l2 cs calls
    rw [List.cons_append, runGo, runGo, ih]

lemma runStep_quad {Cnt Img Q Fr : Type} (within : Q → Q → Bool)
    (recog : Img → Bool × String)
    (cs : List (CardCandidate Cnt Img Q Fr)) (i j : ℕ) :
    ((runStep within recog cs i).1.get? j).map (fun c => c.bounding_quad)
      = (cs.get? j).map (fun c => c.bounding_quad) := by
  by_cases hij : i = j
  · subst hij
    rw [runStep]
    split
    next => rfl
    next c hc =>
      have hlt : i < cs.length := get?_some_lt hc
      split
      · rw [List.get?_set_eq_of_lt _ hlt, hc]
        rfl
      · rw [List.get?_set_eq_of_lt _ hlt, hc]
        rfl
  · rw [runStep_get_ne within recog cs i j hij]

lemma runGo_quad {Cnt Img Q Fr : Type} (within : Q → Q → Bool)
    (recog : Img → Bool × String) :
    ∀ (l : List ℕ) (cs : List (CardCandidate Cnt Img Q Fr))
      (calls : List ℕ) (j : ℕ),
      ((runGo within recog cs calls l).1.get? j).map
          (fun c => c.bounding_quad)
        = (cs.get? j).map (fun c => c.bounding_quad) := by
  intro l
  induction l with
  | nil => intro cs calls j; rfl
  | cons i rest ih =>
    intro cs calls j
    rw [runGo, ih]
    exact runStep_quad within recog cs i j

lemma runStep_frag_true {Cnt Img Q Fr : Type} (within : Q → Q → Bool)
    (recog : Img → Bool × String)
    (cs : List (CardCandidate Cnt Img Q Fr)) (i : ℕ)
    (c : CardCandidate Cnt Img Q Fr) (hc : cs.get? i = some c)
    (hcond : (c.is_fragment || cs.any (fun o =>
      o.is_recognized && !o.is_fragment && candContains within o c))
        = true) :
    (runStep within recog cs i).1.get? i
      = some { c with is_fragment := true } := by
  rw [runStep]
  split
  next hnone => rw [hnone] at hc; cases hc
  next c' hc' =>
    rw [hc'] at hc
    obtain rfl := Option.some.inj hc
    rw [if_pos hcond]
    exact List.get?_set_eq_of_lt _ (get?_some_lt hc')

lemma runStep_called_frag_false {Cnt Img Q Fr : Type} (within : Q → Q → Bool)
    (recog : Img → Bool × String)
    (cs : List (CardCandidate Cnt Img Q Fr)) (i : ℕ) :
    (runStep within recog cs i).2 = true →
    ((runStep within recog cs i).1.get? i).map (fun c => c.is_fragment)
      = some false := by
  rw [runStep]
  split
  next =>
    intro h
    simp at h
  next c hc =>
    split
    next hcond =>
      intro h
      simp at h
    next hcond =>
      intro _
      rw [List.get?_set_eq_of_lt _ (get?_some_lt hc)]
      have hfrag : c.is_fragment = false := by
        by_contra hf
        simp only [Bool.not_eq_false] at hf
        simp [hf] at hcond
      simp [hfrag]

/-- Claim C6 (amended): in `run_recognition`, if candidate A precedes
candidate B in the candidate list and A ends up marked
recognized-and-not-fragment and B's bounding quadrilateral lies within
A's, then B ends up marked as a fragment (A's flags are final before
B's turn, so the inner containment pass sees them); every candidate
whose final fragment flag is set was excluded from recognition
(`recognize_segment` was not called on it); and the candidate list
keeps its length. -/
theorem run_recognition_fragment_filter {Cnt Img Q Fr : Type}
    (within : Q → Q → Bool) (recog : Img → Bool × String)
    (cs : List (CardCandidate Cnt Img Q Fr)) :
    (run_recognition within recog cs).1.length = cs.length ∧
    (∀ i j a b, i < j →
      (run_recognition within recog cs).1.get? i = some a →
      (run_recognition within recog cs).1.get? j = some b →
      a.is_recognized = true → a.is_fragment = false →
      within b.bounding_quad a.bounding_quad = true →
      b.is_fragment = true) ∧
    (∀ j b, (run_recognition within recog cs).1.get? j = some b →
      b.is_fragment = true → j ∉ (run_recognition within recog cs).2) := by
  refine ⟨?_, ?_, ?_⟩
  · simp only [run_recognition]
    exact runGo_length within recog _ cs []
  · -- containment marks fragments
    simp only [run_recognition]
    intro i j a b hij hga hgb hrec hnf hcont
    have hjn : j < cs.length := by
      have hb := get?_some_lt hgb
      rwa [runGo_length] at hb
    -- split the index range at j
    rw [range_split j cs.length hjn, runGo_append, List.range_succ,
      runGo_append] at hga hgb
    set S0 := runGo within recog cs [] (List.range j) with hS0def
    set A := runGo within recog S0.1 S0.2 [j] with hAdef
    -- entries at indices up to j are unchanged by the later steps
    have hfj : (runGo within recog A.1 A.2
        (List.range' (j + 1) (cs.length - (j + 1)))).1.get? j
        = A.1.get? j := by
      apply runGo_get_ne
      intro x hx
      have := List.mem_range'_1.mp hx
      omega
    have hfi : (runGo within recog A.1 A.2
        (List.range' (j + 1) (cs.length - (j + 1)))).1.get? i
        = A.1.get? i := by
      apply runGo_get_ne
      intro x hx
      have := List.mem_range'_1.mp hx
      omega
    rw [hfj] at hgb
    rw [hfi] at hga
    have hAi : A.1.get? i = S0.1.get? i := by
      rw [hAdef]
      apply runGo_get_ne
      intro x hx
      simp at hx
      omega
    rw [hAi] at hga
    -- the state before step j agrees with the input at j
    have hS0j : S0.1.get? j = cs.get? j := by
      rw [hS0def]
      apply runGo_get_ne
      intro x hx
      have := List.mem_range.mp hx
      omega
    obtain ⟨c0, hc0⟩ : ∃ c0, cs.get? j = some c0 := by
      cases h : cs.get? j with
      | none => rw [List.get?_eq_none] at h; omega
      | some c0 => exact ⟨c0, rfl⟩
    have hS0c0 : S0.1.get? j = some c0 := by rw [hS0j, hc0]
    -- b and c0 share their bounding quad
    have hbq : b.bounding_quad = c0.bounding_quad := by
      have h1 := runGo_quad within recog [j] S0.1 S0.2 j
      rw [← hAdef, hgb, hS0c0] at h1
      exact Option.some.inj h1
    -- the inner containment pass finds a
    have hmem : a ∈ S0.1 := List.get?_mem hga
    have hany : (S0.1.any (fun o =>
        o.is_recognized && !o.is_fragment && candContains within o c0))
          = true := by
      rw [List.any_eq_true]
      refine ⟨a, hmem, ?_⟩
      rw [candContains, ← hbq]
      simp [hrec, hnf, hcont]
    have hstep := runStep_frag_true within recog S0.1 j c0 hS0c0
      (by rw [hany]; simp)
    have hAstep : A.1.get? j = some { c0 with is_fragment := true } := by
      rw [hAdef]
      show (runGo within recog S0.1 S0.2 [j]).1.get? j = _
      rw [runGo, runGo]
      exact hstep
    rw [hAstep] at hgb
    obtain rfl := Option.some.inj hgb
    rfl
  · -- fragments were excluded from recognition
    simp only [run_recognition]
    intro j b hgb hfrag hmem
    have hjn : j < cs.length := by
      have hb := get?_some_lt hgb
      rwa [runGo_length] at hb
    rw [range_split j cs.length hjn, runGo_append, List.range_succ,
      runGo_append] at hgb hmem
    set S0 := runGo within recog cs [] (List.range j) with hS0def
    set A := runGo within recog S0.1 S0.2 [j] with hAdef
    -- the call list after step j already contains j
    have hmemA : j ∈ A.2 := by
      rcases runGo_calls_mem within recog _ A.1 A.2 j hmem with h | h
      · exact h
      · exfalso
        have := List.mem_range'_1.mp h
        omega
    have hS0calls : j ∉ S0.2 := by
      intro hj
      rw [hS0def] at hj
      rcases runGo_calls_mem within recog _ cs [] j hj with h | h
      · cases h
      · have := List.mem_range.mp h
        omega
    have hA2 : A.2 = (if (runStep within recog S0.1 j).2
        then S0.2 ++ [j] else S0.2) := by
      rw [hAdef, runGo, runGo]
    by_cases hcall : (runStep within recog S0.1 j).2 = true
    · -- j was called, so its fragment flag is false afterwards
      have hff := runStep_called_frag_false within recog S0.1 j hcall
      have hAj : A.1.get? j = (runStep within recog S0.1 j).1.get? j := by
        rw [hAdef, runGo, runGo]
      have hfj : (runGo within recog A.1 A.2
          (List.range' (j + 1) (cs.length - (j + 1)))).1.get? j
          = A.1.get? j := by
        apply runGo_get_ne
        intro x hx
        have := List.mem_range'_1.mp hx
        omega
      rw [hfj, hAj] at hgb
      rw [hgb] at hff
      simp [hfrag] at hff
    · -- j was not called, so the call list cannot contain it
      rw [hA2, if_neg hcall] at hmemA
      exact hS0calls hmemA

/-- A candidate whose bounding quad (abstracted to `1 : ℕ`) contains the
quad of `candB` under the order-based containment test below. -/
def candA : CardCandidate Unit Unit ℕ Unit :=
  { image := (), contour := (), bounding_quad := 1,
    is_recognized := false, is_fragment := false,
    image_area_fraction := (), name := "unknown" }

/-- A candidate whose bounding quad (abstracted to `0 : ℕ`) lies within
the quad of `candA` under the order-based containment test below. -/
def candB : CardCandidate Unit Unit ℕ Unit :=
  { image := (), contour := (), bounding_quad := 0,
    is_recognized := false, is_fragment := false,
    image_area_fraction := (), name := "unknown" }

/-- Claim C6 (counterexample to the order-free reading): when the
contained candidate precedes its container in the candidate list, the
final state has candidate A (processed second) recognized and not a
fragment, candidate B's bounding quad within A's, and yet B is NOT
marked as a fragment — B was already recognized before A's flags were
set, so "for every pair A, B" does not hold of the final state. -/
theorem run_recognition_unordered_counterexample :
    ∃ a b,
      (run_recognition (fun x y => decide (x < y)) (fun _ => (true, "X"))
          [candB, candA]).1.get? 1 = some a ∧
      (run_recognition (fun x y => decide (x < y)) (fun _ => (true, "X"))
          [candB, candA]).1.get? 0 = some b ∧
      a.is_recognized = true ∧ a.is_fragment = false ∧
      (fun x y => decide (x < y)) b.bounding_quad a.bounding_quad = true ∧
      b.is_fragment = false :=
  ⟨{ candA with is_recognized := true, name := "X" },
   { candB with is_recognized := true, name := "X" },
   rfl, rfl, rfl, rfl, rfl, rfl⟩

/-- Concrete instance of the amended C6 theorem: with the container
first in the list, the contained candidate does end up marked as a
fragment. -/
theorem run_recognition_fragment_filter_witness :
    ((run_recognition (fun x y => decide (x < y)) (fun _ => (true, "X"))
        [candA, candB]).1.get? 1).map (fun c => c.is_fragment)
      = some true := by
  have hga : (run_recognition (fun x y => decide (x < y))
      (fun _ => (true, "X")) [candA, candB]).1.get? 0
      = some { candA with is_recognized := true, name := "X" } := rfl
  have hgb : (run_recognition (fun x y => decide (x < y))
      (fun _ => (true, "X")) [candA, candB]).1.get? 1
      = some { candB with is_fragment := true } := rfl
  have h := (run_recognition_fragment_filter (fun x y => decide (x < y))
      (fun _ => (true, "X")) [candA, candB]).2.1 0 1
      { candA with is_recognized := true, name := "X" }
      { candB with is_fragment := true }
      (by decide) hga hgb rfl rfl rfl
  rw [hgb]
  exact congrArg some h

end MTG
